import Mathlib

/-!
Verification development for the dynamic-form engine backend
(`backend/app/utils.py`, `backend/app/crud.py`, `backend/app/main.py`).

The Python code manipulates loosely-typed JSON documents.  We shallowly embed
the JSON value universe as `JValue`; Python `dict`s are embedded as
insertion-ordered association lists with unique keys, which matches CPython's
ordered-dict semantics (assignment to an existing key updates it in place,
assignment to a fresh key appends at the end).  Fallible Python code (code
that can raise `TypeError`/`KeyError` on malformed documents) is embedded in
`Option`; `none` models an uncaught Python exception.  `uuid.uuid4()` calls
are embedded by threading an id supply `gen : Nat → String` together with a
counter, so that id generation is explicit and deterministic per supply.
-/

namespace FormsApp

/-- The JSON value universe manipulated by the backend.  Python `bool` is a
separate constructor because the code distinguishes it with `isinstance`
checks before `int`/`float`; floats are carried as rationals (only their
equality with `0`/`1` and their type tag ever matter to the code). -/
inductive JValue where
  | null
  | bool (b : Bool)
  | int (n : Int)
  | float (q : Rat)
  | str (s : String)
  | list (xs : List JValue)
  | obj (fields : List (String × JValue))

/-- Python dicts embedded as insertion-ordered association lists. -/
abbrev Dict := List (String × JValue)

/-- Python truthiness (`bool(x)`), used by `if x:` and `x or y`. -/
def truthy : JValue → Bool
  | .null => false
  | .bool b => b
  | .int n => n ≠ 0
  | .float q => q ≠ 0
  | .str s => s ≠ ""
  | .list xs => ¬ xs.isEmpty
  | .obj fs => ¬ fs.isEmpty

/-- Python `a or b` on JSON values. -/
def pyOr (a b : JValue) : JValue := if truthy a then a else b

/-- `d.get(k)` / `d[k]` lookup: first (unique) binding of `k`. -/
def alGet : Dict → String → Option JValue
  | [], _ => none
  | (k', v) :: rest, k => if k' = k then some v else alGet rest k

/-- `d.get(k, default)`. -/
def alGetD (l : Dict) (k : String) (d : JValue) : JValue :=
  (alGet l k).getD d

/-- `k in d`. -/
def alContains (l : Dict) (k : String) : Bool :=
  (alGet l k).isSome

/-- `d[k] = v`: update the binding in place if the key exists, else
append (CPython ordered-dict assignment; a Python dict never holds a
duplicate key, so updating the first occurrence is exact). -/
def alSet : Dict → String → JValue → Dict
  | [], k, v => [(k, v)]
  | (k', v') :: rest, k, v =>
    if k' = k then (k, v) :: rest else (k', v') :: alSet rest k v

/-- `d.setdefault(k, v)`: keep any existing binding (even one bound to
`None`), else append. -/
def alSetdefault (l : Dict) (k : String) (v : JValue) : Dict :=
  if alContains l k then l else l ++ [(k, v)]

/-- `d.pop(k)`: remove the binding of `k`. -/
def alPop (l : Dict) (k : String) : Dict :=
  l.filter (fun p => p.1 ≠ k)

/-- Python `str()` of the scalar JSON values.  The containers are str()-ed
only in corner cases the claims never exercise; they are given fixed
placeholder renderings here. -/
def pyStr : JValue → String
  | .null => "None"
  | .bool true => "True"
  | .bool false => "False"
  | .int n => toString n
  | .float q => toString q
  | .str s => s
  | .list _ => "[...]"
  | .obj _ => "\x7b...\x7d"

/-- The whitespace set stripped by Python `str.strip()`. -/
def pyWhitespace (ch : Char) : Bool :=
  ch = ' ' ∨ ch = '\t' ∨ ch = '\n' ∨ ch = '\r' ∨ ch = '\x0b' ∨ ch = '\x0c'

/-- Python `str.strip()`. -/
def pyStrip (s : String) : String :=
  String.mk (((s.toList.dropWhile pyWhitespace).reverse.dropWhile pyWhitespace).reverse)

/-- Helper for `str.splitlines()`: accumulate the current line. -/
def pySplitlinesAux : List Char → List Char → List String
  | [], acc => if acc.isEmpty then [] else [String.mk acc.reverse]
  | '\r' :: '\n' :: rest, acc => String.mk acc.reverse :: pySplitlinesAux rest []
  | '\r' :: rest, acc => String.mk acc.reverse :: pySplitlinesAux rest []
  | '\n' :: rest, acc => String.mk acc.reverse :: pySplitlinesAux rest []
  | ch :: rest, acc => pySplitlinesAux rest (ch :: acc)

/-- Python `str.splitlines()` (restricted to the `\n`, `\r`, `\r\n`
separators; the exotic unicode line breaks never appear in the claims). -/
def pySplitlines (s : String) : List String :=
  pySplitlinesAux s.toList []

/-- Helper for whitespace `str.split()`. -/
def pySplitWsAux : List Char → List Char → List String
  | [], acc => if acc.isEmpty then [] else [String.mk acc.reverse]
  | ch :: rest, acc =>
      if pyWhitespace ch then
        if acc.isEmpty then pySplitWsAux rest []
        else String.mk acc.reverse :: pySplitWsAux rest []
      else pySplitWsAux rest (ch :: acc)

/-- Python `str.split()` with no argument: split on whitespace runs,
dropping empty fields. -/
def pySplitWs (s : String) : List String :=
  pySplitWsAux s.toList []

/-- Python `sep.join(xs)`. -/
def pyJoin (sep : String) (xs : List String) : String :=
  match xs with
  | [] => ""
  | x :: rest => rest.foldl (fun acc y => acc ++ sep ++ y) x

/-- Character-wise lowercasing (`str.lower()`; equal to Lean's
`String.toLower`, but stated over the character list so that it reduces
by computation). -/
def pyLower (s : String) : String := String.mk (s.toList.map Char.toLower)

/-- Python `str.casefold()`, modelled as ASCII lowercasing (the two agree on
every label appearing in the claims and tests). -/
def pyCasefold (s : String) : String := pyLower s

/-- Left-to-right, non-overlapping occurrence deletion/replacement on
character lists (`str.replace`), fuelled so that it reduces by
computation; the fuel is the string length, which always suffices. -/
def pyReplaceAux (pat rep : List Char) : Nat → List Char → List Char
  | _, [] => []
  | 0, l => l
  | fuel + 1, c :: rest =>
    if pat ≠ [] ∧ (c :: rest).take pat.length = pat then
      rep ++ pyReplaceAux pat rep fuel ((c :: rest).drop pat.length)
    else c :: pyReplaceAux pat rep fuel rest

/-- Python `s.replace(pat, rep)`. -/
def pyReplace (s pat rep : String) : String :=
  String.mk (pyReplaceAux pat.toList rep.toList s.length s.toList)

/-- `utils.is_uuid` / `main._is_uuid`: `uuid.UUID(str(v))` succeeds.  The
CPython constructor deletes every `urn:` and `uuid:` occurrence, strips
curly braces from both ends, deletes all dashes and then requires exactly
32 hex digits. -/
def is_uuid (value : String) : Bool :=
  let t := pyReplace (pyReplace value "urn:" "") "uuid:" ""
  let t := String.mk ((t.toList.dropWhile (fun c => c = '\x7b' ∨ c = '\x7d')).reverse.dropWhile
      (fun c => c = '\x7b' ∨ c = '\x7d')).reverse
  let hexChars := t.toList.filter (fun c => c ≠ '-')
  hexChars.length = 32 ∧ hexChars.all (fun c => c.isDigit ∨ ('a' ≤ c ∧ c ≤ 'f') ∨ ('A' ≤ c ∧ c ≤ 'F'))

/-- External collaborators of the embedded code: the `uuid.uuid4()` id
supply (threaded with a `Nat` counter, advanced once per call) and the
CPython `json.loads` parser (library code outside this repository;
`none` models a parse error).  All theorems quantify over both. -/
structure Env where
  gen : Nat → String
  jloads : String → Option JValue

/-- The id supply standing in for `uuid.uuid4()`. -/
abbrev Gen := Nat → String

/-- Python iteration `for x in v`.  Lists yield their elements, strings
their characters, dicts their keys; everything else raises `TypeError`
(`none`). -/
def pyIter : JValue → Option (List JValue)
  | .list xs => some xs
  | .str s => some (s.toList.map (fun c => .str (String.mk [c])))
  | .obj fs => some (fs.map (fun p => .str p.1))
  | _ => none

/-- Python `dict(v)`, as used on question/section values: succeeds on a
dict (shallow copy).  (CPython additionally accepts iterables of pairs;
that corner is not representable in the documents the claims range over
and is modelled as a `TypeError`.) -/
def dictConv : JValue → Option Dict
  | .obj fs => some fs
  | _ => none

/-- `utils._split_nonempty_lines`. -/
def _split_nonempty_lines (text : String) : List String :=
  ((pySplitlines text).map pyStrip).filter (fun line => line ≠ "")

/-- The `options` block of `utils.normalize_dropdown_options` (the first
`if` of the Python function). -/
def normalize_options_field (q : Dict) : Dict :=
  let isDropdownKind : Bool := match alGet q "type" with
    | some (.str t) => t = "dropdown" ∨ t = "dropdown_mapped"
    | _ => false
  if isDropdownKind then
    match alGet q "options" with
    | some (.str s) => alSet q "options" (.list ((_split_nonempty_lines s).map .str))
    | some (.list opts) =>
        -- list of single-character strings: re-join then line-split
        if ¬ opts.isEmpty ∧ opts.all (fun x => match x with
            | .str s => s.length ≤ 1
            | _ => false) then
          let joined := pyJoin "" (opts.map (fun x => match x with | .str s => s | _ => ""))
          alSet q "options" (.list ((_split_nonempty_lines joined).map .str))
        else
          alSet q "options"
            (.list (((opts.map (fun x => pyStrip (pyStr x))).filter (fun s => s ≠ "")).map .str))
    | _ => q
  else q

/-- The `value_map` block of `utils.normalize_dropdown_options` (the
second `if` of the Python function; the `type` field is never touched by
the options block, so reading it afterwards is equivalent). -/
def normalize_value_map_field (env : Env) (q : Dict) : Dict :=
  let isMapped : Bool := match alGet q "type" with
    | some (.str t) => t = "dropdown_mapped"
    | _ => false
  if isMapped then
    match alGet q "value_map" with
    | none => alSet q "value_map" (.obj [])
    | some .null => alSet q "value_map" (.obj [])
    | some (.obj fs) => alSet q "value_map" (.obj fs)
    | some (.str s) =>
        alSet q "value_map" (match env.jloads s with | some (.obj fs) => .obj fs | _ => .obj [])
    | some _ => alSet q "value_map" (.obj [])
  else q

/-- `utils.normalize_dropdown_options` (field-level normalization of
`options` / `value_map`; total, exactly as the Python function). -/
def normalize_dropdown_options (env : Env) (question : Dict) : Dict :=
  normalize_value_map_field env (normalize_options_field question)

/-- Inner question loop of `utils.ensure_question_ids`: each question is
dict-copied, normalized, and given `setdefault`-ed id.  `uuid.uuid4()` is
evaluated eagerly as the `setdefault` default, so the supply counter
advances once per question whether or not the id is used. -/
def ensure_questions_list (env : Env) : List JValue → Nat → Option (List JValue × Nat)
  | [], c => some ([], c)
  | q :: rest, c => do
    let qd ← dictConv q
    let qd := normalize_dropdown_options env qd
    let fresh := env.gen c
    let qd := alSetdefault qd "id" (.str fresh)
    let (qs, c') ← ensure_questions_list env rest (c + 1)
    pure (JValue.obj qd :: qs, c')

/-- Section loop of `utils.ensure_question_ids`. -/
def ensure_sections_list (env : Env) : List JValue → Nat → Option (List JValue × Nat)
  | [], c => some ([], c)
  | sec :: rest, c => do
    let sf ← dictConv sec
    let qsRaw ← pyIter (alGetD sf "questions" (.list []))
    let (qs, c') ← ensure_questions_list env qsRaw c
    let sec' := alSet sf "questions" (.list qs)
    let (secs, c'') ← ensure_sections_list env rest c'
    pure (JValue.obj sec' :: secs, c'')

/-- `utils.ensure_question_ids`: walk the sections, normalize every
question and assign a fresh id where missing; finally `setdefault` the
title to `canonical.get("name") or "Untitled"`. -/
def ensure_question_ids (env : Env) (canonical : JValue) (c : Nat) : Option (JValue × Nat) := do
  let canonical ← dictConv canonical
  let sections ← pyIter (alGetD canonical "sections" (.list []))
  let (newSections, c) ← ensure_sections_list env sections c
  let canonical := alSet canonical "sections" (.list newSections)
  let canonical := alSetdefault canonical "title" (pyOr (alGetD canonical "name" .null) (.str "Untitled"))
  pure (JValue.obj canonical, c)

/-- One legacy question item (`utils.to_canonical_question_set` inner
loop), or `none` when the item is skipped. -/
def legacy_question_item (item : JValue) : Option Dict :=
  match item with
  | .obj fields =>
    if fields.length = 1 then
      match fields with
      | (q_text, metaRaw) :: _ =>
        let meta : Dict := match metaRaw with | .obj fs => fs | _ => []
        let qobj : Dict :=
          [("text", .str q_text),
           ("type", .str (pyStr (alGetD meta "type" (.str "short_text")))),
           ("required", .bool (truthy (alGetD meta "required" (.bool true))))]
        let qobj := match alGet meta "options" with
          | some (.list xs) => qobj ++ [("options", .list (xs.map (fun x => .str (pyStr x))))]
          | _ => qobj
        let qobj := match pyOr (alGetD meta "value_map" .null) (alGetD meta "map" .null) with
          | .obj fs => qobj ++ [("value_map", .obj fs)]
          | _ => qobj
        some qobj
      | [] => none
    else if alContains fields "question" then
      let qobj : Dict :=
        [("text", .str (pyStr (alGetD fields "question" .null))),
         ("type", .str (pyStr (alGetD fields "type" (.str "short_text")))),
         ("required", .bool (truthy (alGetD fields "required" (.bool true))))]
      let qobj := match alGet fields "options" with
        | some (.list xs) => qobj ++ [("options", .list (xs.map (fun x => .str (pyStr x))))]
        | _ => qobj
      let qobj := match pyOr (alGetD fields "value_map" .null) (alGetD fields "map" .null) with
        | .obj fs => qobj ++ [("value_map", .obj fs)]
        | _ => qobj
      some qobj
    else none
  | _ => none

/-- `utils.to_canonical_question_set`: shape dispatch (canonical /
legacy single-key nesting / unknown fallback), then id assignment. -/
def to_canonical_question_set (env : Env) (raw : JValue) (fallback_name : String) (c : Nat) :
    Option (JValue × Nat) :=
  match raw with
  | .obj fields =>
    if alContains fields "sections" ∧ alContains fields "title" then
      ensure_question_ids env (.obj fields) c
    else if fields.length = 1 then
      match fields with
      | (title, inner) :: _ =>
        let sections : List JValue :=
          match inner with
          | .obj innerFields =>
            innerFields.map (fun p =>
              let questions : List JValue :=
                match p.2 with
                | .list items => (items.filterMap legacy_question_item).map JValue.obj
                | _ => []
              JValue.obj [("title", .str p.1), ("questions", .list questions)])
          | _ => []
        ensure_question_ids env (.obj [("title", .str title), ("sections", .list sections)]) c
      | [] => ensure_question_ids env
          (.obj [("title", .str fallback_name),
                 ("sections", JValue.list [.obj [("title", .str "Section"), ("questions", .list [])]])]) c
    else
      ensure_question_ids env
        (.obj [("title", .str fallback_name),
               ("sections", JValue.list [.obj [("title", .str "Section"), ("questions", .list [])]])]) c
  | _ =>
    ensure_question_ids env
      (.obj [("title", .str fallback_name),
             ("sections", JValue.list [.obj [("title", .str "Section"), ("questions", .list [])]])]) c

/-- `utils.canonical_project_custom_questions`. -/
def canonical_project_custom_questions (env : Env) (raw : JValue) (c : Nat) :
    Option (JValue × Nat) :=
  match raw with
  | .obj fields =>
    if alContains fields "sections" ∧ alContains fields "title" then
      ensure_question_ids env (.obj fields) c
    else
      ensure_question_ids env (.obj [("title", .str "Custom"), ("sections", .list [])]) c
  | _ => ensure_question_ids env (.obj [("title", .str "Custom"), ("sections", .list [])]) c

/-- `utils.normalize_label` / `main._norm_label` (identical code):
`" ".join(str(label).strip().split()).casefold()`. -/
def normalize_label (label : JValue) : String :=
  pyCasefold (pyJoin " " (pySplitWs (pyStrip (pyStr label))))

/-- `utils.normalize_yes_no` / `main._normalize_yes_no` (identical code):
normalize common boolean-like values to the strings `"yes"`/`"no"`.
The trailing Python `value in (0, 1)` test also catches the floats
`0.0`/`1.0`; strings that missed the keyword sets fall through
unchanged (a string never equals `0` or `1` in Python). -/
def normalize_yes_no (value : JValue) : JValue :=
  match value with
  | .bool true => .str "yes"
  | .bool false => .str "no"
  | .str s =>
    let vv := pyLower (pyStrip s)
    if vv = "true" ∨ vv = "t" ∨ vv = "1" ∨ vv = "yes" ∨ vv = "y" then .str "yes"
    else if vv = "false" ∨ vv = "f" ∨ vv = "0" ∨ vv = "no" ∨ vv = "n" then .str "no"
    else .str s
  | .int n => if n = 1 then .str "yes" else if n = 0 then .str "no" else .int n
  | .float q => if q = 1 then .str "yes" else if q = 0 then .str "no" else .float q
  | v => v

/-- The date test of `utils.infer_question_from_value`:
`len(raw.strip()) == 10 and raw.strip()[4] == "-"` (applied to the
stripped string). -/
def utils_date_test (stripped : String) : Bool :=
  stripped.length = 10 ∧ stripped.toList.get? 4 = some '-'

/-- The date test of `main._infer_question_from_value`:
`re.fullmatch(r"\d\x7b4\x7d-\d\x7b2\x7d-\d\x7b2\x7d", raw.strip())`. -/
def main_date_test (stripped : String) : Bool :=
  match stripped.toList with
  | [y1, y2, y3, y4, h1, m1, m2, h2, d1, d2] =>
    y1.isDigit ∧ y2.isDigit ∧ y3.isDigit ∧ y4.isDigit ∧ h1 = '-' ∧
    m1.isDigit ∧ m2.isDigit ∧ h2 = '-' ∧ d1.isDigit ∧ d2.isDigit
  | _ => false

/-- Common core of `utils.infer_question_from_value` and
`main._infer_question_from_value`: the two Python functions are verbatim
identical except for the date test, which is passed in.  Returns
`(question_definition, normalized_value, counter)`. -/
def infer_question_core (dateTest : String → Bool) (env : Env) (label : JValue) (raw : JValue)
    (c : Nat) : Dict × JValue × Nat :=
  let question : Dict :=
    [("id", .str (env.gen c)), ("text", .str (pyStrip (pyStr label))), ("required", .bool false)]
  let c := c + 1
  -- structured input shape: {type, value/answer, options, value_map}
  let (question, raw) :=
    match raw with
    | .obj meta =>
      let qtype := pyOr (alGetD meta "type" .null) (alGetD meta "qtype" .null)
      let value := if alContains meta "value" then alGetD meta "value" .null
                   else alGetD meta "answer" (.obj meta)
      let question := if truthy qtype then alSet question "type" (.str (pyStr qtype)) else question
      let question := match alGet meta "options" with
        | some (.list xs) => alSet question "options" (.list xs)
        | _ => question
      let question := match alGet meta "value_map" with
        | some (.obj fs) => alSet question "value_map" (.obj fs)
        | _ => question
      (question, value)
    | _ => (question, raw)
  -- heuristic type inference
  let (question, raw) :=
    if alContains question "type" then (question, raw)
    else
      match raw with
      | .bool b => (alSet question "type" (.str "yes_no"), normalize_yes_no (.bool b))
      | .int n => (alSet question "type" (.str "numeric"), JValue.int n)
      | .float q => (alSet question "type" (.str "numeric"), JValue.float q)
      | .str s =>
        if dateTest (pyStrip s) then (alSet question "type" (.str "date"), JValue.str s)
        else
          (alSet question "type" (.str (if s.length > 80 then "long_text" else "short_text")),
           JValue.str s)
      | v => (alSet question "type" (.str "short_text"), v)
  let raw := match alGet question "type" with
    | some (.str t) => if t = "yes_no" then normalize_yes_no raw else raw
    | _ => raw
  (question, raw, c)

/-- `utils.infer_question_from_value`. -/
def infer_question_from_value (env : Env) (label : JValue) (raw : JValue) (c : Nat) :
    Dict × JValue × Nat :=
  infer_question_core utils_date_test env label raw c

/-- `main._infer_question_from_value` (the copy used by the
`/projects/{id}/records` route). -/
def infer_question_from_value_main (env : Env) (label : JValue) (raw : JValue) (c : Nat) :
    Dict × JValue × Nat :=
  infer_question_core main_date_test env label raw c

/-- `crud.merged_project_form`, lines 385-421, given the project's name,
the `data` documents of its assigned question sets in assignment position
order, and its custom-question block.  Sections of each assigned set are
retitled `"{set_title} — {section_title}"`; the canonicalized custom
block's sections are appended last retitled `"Custom — {section_title}"`.
Both titles go through the f-string `str()` conversion, with defaults
`"Set {idx+1}"` / `"Section"` when missing.

This is the section-renaming loop body, shared by the assigned-set loop
and the custom-block loop (which passes `"Custom"` as the prefix). -/
def merge_rename_sections (set_title : String) : List JValue → Option (List JValue)
  | [] => some []
  | sec :: rest => do
    let sf ← dictConv sec
    let sec_title := match alGet sf "title" with
      | some v => pyStr v
      | none => "Section"
    let renamed := JValue.obj [("title", .str (set_title ++ " — " ++ sec_title)),
                               ("questions", alGetD sf "questions" (.list []))]
    let restRenamed ← merge_rename_sections set_title rest
    pure (renamed :: restRenamed)

/-- The loop over assigned question sets in `crud.merged_project_form`:
`idx` carries the `enumerate` index (used only for the default title). -/
def merge_sets_loop (idx : Nat) : List JValue → Option (List JValue)
  | [] => some []
  | sdata :: rest => do
    let sd ← dictConv sdata
    let set_title := match alGet sd "title" with
      | some v => pyStr v
      | none => "Set " ++ toString (idx + 1)
    let secs ← pyIter (alGetD sd "sections" (.list []))
    let renamed ← merge_rename_sections set_title secs
    let restRenamed ← merge_sets_loop (idx + 1) rest
    pure (renamed ++ restRenamed)

def merged_project_form (env : Env) (setsData : List JValue) (projName : String)
    (custom : JValue) (c : Nat) : Option (JValue × Nat) := do
  let (customC, c) ← canonical_project_custom_questions env custom c
  let mergedPerSet ← merge_sets_loop 0 setsData
  let customD ← dictConv customC
  let csecs ← pyIter (alGetD customD "sections" (.list []))
  let mergedCustom ← merge_rename_sections "Custom" csecs
  pure (JValue.obj [("title", .str projName),
                    ("sections", .list (mergedPerSet ++ mergedCustom))], c)

/-- `crud.question_lookup_from_form`, lines 424-443: flatten the form into
`str(q["id"]) -> \x7btext, type, required, options, value_map\x7d` (exactly
this fixed key set, each defaulting to `None`). -/
def lookup_entry_of (qd : Dict) : JValue :=
  JValue.obj
    [("text", alGetD qd "text" .null),
     ("type", alGetD qd "type" .null),
     ("required", alGetD qd "required" .null),
     ("options", alGetD qd "options" .null),
     ("value_map", alGetD qd "value_map" .null)]

/-- Question loop of `crud.question_lookup_from_form` (the `out` dict is
the accumulator). -/
def lookup_questions_loop : List JValue → Dict → Option Dict
  | [], out => some out
  | q :: rest, out => do
    let qd ← dictConv q
    let idv ← alGet qd "id"
    lookup_questions_loop rest (alSet out (pyStr idv) (lookup_entry_of qd))

/-- Section loop of `crud.question_lookup_from_form`. -/
def lookup_sections_loop : List JValue → Dict → Option Dict
  | [], out => some out
  | sec :: rest, out => do
    let sf ← dictConv sec
    let qs ← pyIter (alGetD sf "questions" (.list []))
    let out' ← lookup_questions_loop qs out
    lookup_sections_loop rest out'

def question_lookup_from_form (form : JValue) : Option Dict := do
  let f ← dictConv form
  let secs ← pyIter (alGetD f "sections" (.list []))
  lookup_sections_loop secs ([] : Dict)

/-- Append the question `q` to the `questions` of the *first* section
matched by `mt` (Python's `next((s for s in sections if ...), None)`
selects a single section; `section["questions"] = list(...or []) + [q]`
mutates it in place).  A non-dict entry scanned before a match would
raise in Python; canonical blocks only hold section dicts, and the model
treats such an entry as a non-match. -/
def add_to_first_matching (mt : JValue → Bool) (q : Dict) : List JValue → Option (List JValue)
  | [] => some []
  | s :: rest =>
    if mt s then do
      let sf ← dictConv s
      let qs ← match pyOr (alGetD sf "questions" .null) (.list []) with
        | .list xs => some xs
        | v => pyIter v
      pure (JValue.obj (alSet sf "questions" (.list (qs ++ [JValue.obj q]))) :: rest)
    else do
      let rest' ← add_to_first_matching mt q rest
      pure (s :: rest')

/-- `crud.add_project_custom_question`, lines 452-472, acting on the
project's custom-question block (the function commits the new block to
the database before returning).  The inserted question defaults
`required` to `True`, `type` to `"short_text"` and `id` to a fresh uuid
(the uuid default is evaluated eagerly, advancing the supply). -/
def add_project_custom_question (env : Env) (custom : JValue) (section_title : String)
    (question : Dict) (c : Nat) : Option (JValue × Nat) := do
  let (cq, c) ← canonical_project_custom_questions env custom c
  let cqd ← dictConv cq
  let sections ← pyIter (alGetD cqd "sections" (.list []))
  let matchesTitle : JValue → Bool := fun s =>
    match s with
    | .obj sf => match alGet sf "title" with
      | some (.str t) => t = section_title
      | _ => false
    | _ => false
  let q := question
  let q := alSetdefault q "required" (.bool true)
  let q := alSetdefault q "type" (.str "short_text")
  let fresh := env.gen c
  let q := alSetdefault q "id" (.str fresh)
  let c := c + 1
  let sections' ←
    if sections.any matchesTitle then
      add_to_first_matching matchesTitle q sections
    else
      pure (sections ++ [JValue.obj [("title", .str section_title),
                                     ("questions", JValue.list [.obj q])]])
  pure (JValue.obj (alSet cqd "sections" (.list sections')), c)

/-- A stored question-set version (`models.QuestionSet`): id, lineage
name, soft-delete marker and canonical document. -/
structure QSet where
  id : Nat
  name : String
  deleted : Bool
  data : JValue

/-- A project assignment row (`models.ProjectQuestionSet`): subject to the
unique constraint on `(project_id, question_set_id)`. -/
structure PQS where
  project_id : Nat
  question_set_id : Nat
  position : Nat
deriving DecidableEq, Repr

/-- The slice of database state the version registry operates on. -/
structure Registry where
  question_sets : List QSet
  assignments : List PQS

/-- The autoincrement id the database hands the new `QuestionSet` row. -/
def next_qset_id (db : Registry) : Nat :=
  (db.question_sets.map QSet.id).foldl max 0 + 1

/-- One step of the auto-upgrade loop of `crud.create_question_set`
(lines 196-206): if the row's project already has an assignment to the
new version, delete the row, else rewrite the row in place to point at
the new version (the `exists_new` SELECT sees the session's already
rewritten rows, which SQLAlchemy autoflushes). -/
def upgrade_step (newId : Nat) (asg : List PQS) (row : PQS) : List PQS :=
  if asg.any (fun a => a.project_id = row.project_id ∧ a.question_set_id = newId) then
    asg.filter (fun a =>
      ¬ (a.project_id = row.project_id ∧ a.question_set_id = row.question_set_id))
  else
    asg.map (fun a =>
      if a.project_id = row.project_id ∧ a.question_set_id = row.question_set_id then
        { a with question_set_id := newId }
      else a)

/-- `crud.create_question_set`, lines 176-210: canonicalize the payload,
insert it as a new version of `name`, then auto-upgrade every assignment
that references an older non-deleted version of the same name.  Returns
the new registry state, the new version's id and the id-supply counter. -/
def create_question_set (env : Env) (db : Registry) (name : String) (raw : JValue) (c : Nat) :
    Option (Registry × Nat × Nat) := do
  let (canonical, c) ← to_canonical_question_set env raw name c
  let newId := next_qset_id db
  let db : Registry :=
    { db with question_sets := db.question_sets ++ [⟨newId, name, false, canonical⟩] }
  let old_ids := (db.question_sets.filter
      (fun q => q.name = name ∧ q.id ≠ newId ∧ ¬ q.deleted)).map QSet.id
  let rows := db.assignments.filter (fun a => a.question_set_id ∈ old_ids)
  let assignments := rows.foldl (upgrade_step newId) db.assignments
  pure ({ db with assignments := assignments }, newId, c)

/-- The project fields consumed by answer ingestion
(`db.get(Project, project_id)` in the route). -/
structure ProjCtx where
  name : String
  focalpoint_code : Option Int

/-- The per-project state the record route can read and write: the
custom-question block and the stored records (each record is its answers
dict).  Every `crud` helper commits its own transaction, so the state is
updated at each helper call, not once at the end. -/
structure St where
  custom_questions : JValue
  records : List Dict

/-- The two `HTTPException(400)` failures of the record route. -/
inductive RouteErr where
  | unknownKey (key : String)
  | missingRequired (msg : String)
deriving DecidableEq, Repr

/-- The auto-fill loop of `main.create_record` (lines 436-446): for each
lookup entry whose `auto` field is a dict, write the project name or the
integer focalpoint code (skipped when absent) into the answers. -/
def autofill_answers (qlookup : Dict) (proj : ProjCtx) (answers : Dict) : Dict :=
  qlookup.foldl (fun ans p =>
    match p.2 with
    | .obj fields =>
      match alGet fields "auto" with
      | some (.obj auto) =>
        match alGet auto "source" with
        | some (.str src) =>
          if src = "project_name" then alSet ans p.1 (.str proj.name)
          else if src = "project_focalpoint_code" then
            match proj.focalpoint_code with
            | some n => alSet ans p.1 (.int n)
            | none => ans
          else ans
        | _ => ans
      | _ => ans
    | _ => ans) answers

/-- Normalized-label index (`label_to_qid`), a string-to-string dict. -/
abbrev LabelMap := List (String × String)

/-- Ordered-dict assignment on the label index. -/
def lmSet (m : LabelMap) (k v : String) : LabelMap :=
  if (m.find? (fun p => p.1 = k)).isSome then
    m.map (fun p => if p.1 = k then (k, v) else p)
  else m ++ [(k, v)]

/-- Label index lookup. -/
def lmGet (m : LabelMap) (k : String) : Option String :=
  (m.find? (fun p => p.1 = k)).map Prod.snd

/-- `label_to_qid` construction / refresh (`main.create_record` lines
461-463 and the two refresh blocks): every lookup entry with a truthy
`text` is indexed by its normalized label. -/
def extend_label_map (qlookup : Dict) (m : LabelMap) : LabelMap :=
  qlookup.foldl (fun m p =>
    match p.2 with
    | .obj fields =>
      let text := alGetD fields "text" .null
      if truthy text then lmSet m (normalize_label text) p.1 else m
    | _ => m) m

/-- Mutable state of the unknown-key resolution loop. -/
structure ResolveState where
  answers : Dict
  qlookup : Dict
  labelMap : LabelMap
  custom : JValue
  c : Nat

/-- Outcome of the unknown-key loop: either every key was resolved, or an
`Unknown question id` failure was raised — in which case the state still
carries every mutation committed by the earlier iterations. -/
inductive ResolveOut where
  | ok (st : ResolveState)
  | err (st : ResolveState) (key : String)

/-- One iteration of the unknown-key loop of `main.create_record`
(lines 467-522) for the key `k`. -/
def resolve_one (env : Env) (setsData : List JValue) (projName : String)
    (st : ResolveState) (k : String) : Option ResolveOut := do
  let raw_val ← alGet st.answers k
  let answers := alPop st.answers k
  let metaLabel : Option JValue := match raw_val with
    | .obj rv =>
      let l := pyOr (alGetD rv "text" .null) (alGetD rv "question" .null)
      if truthy l then some l else none
    | _ => none
  match if is_uuid k then metaLabel else none with
  | some label =>
    -- unknown UUID + metadata object -> create using the provided UUID
    match raw_val with
    | .obj rv =>
      let qtype := alGetD rv "type" .null
      let metaValue := if alContains rv "value" then alGetD rv "value" .null
                       else alGetD rv "answer" .null
      let (qdef, norm_val, c) := infer_question_from_value_main env label
          (.obj [("type", qtype), ("value", metaValue)]) st.c
      let qdef := alSet qdef "id" (.str k)
      match lmGet st.labelMap (normalize_label label) with
      | some existing_qid =>
        pure (ResolveOut.ok { st with answers := alSet answers existing_qid norm_val, c := c })
      | none => do
        let (custom, c) ← add_project_custom_question env st.custom "Auto-created" qdef c
        let (form, c) ← merged_project_form env setsData projName custom c
        let qlookup ← question_lookup_from_form form
        let labelMap := extend_label_map qlookup st.labelMap
        pure (ResolveOut.ok { answers := alSet answers k norm_val, qlookup := qlookup,
                              labelMap := labelMap, custom := custom, c := c })
    | _ => none
  | none =>
    if ¬ is_uuid k then
      -- human readable label key -> create / reuse a custom question
      match lmGet st.labelMap (normalize_label (.str k)) with
      | some existing_qid =>
        pure (ResolveOut.ok { st with answers := alSet answers existing_qid raw_val })
      | none => do
        let (qdef, norm_val, c) := infer_question_from_value_main env (.str k) raw_val st.c
        let (custom, c) ← add_project_custom_question env st.custom "Auto-created" qdef c
        let (form, c) ← merged_project_form env setsData projName custom c
        let qlookup ← question_lookup_from_form form
        let labelMap := extend_label_map qlookup st.labelMap
        let qdefId ← alGet qdef "id"
        match qdefId with
        | .str idStr =>
          pure (ResolveOut.ok { answers := alSet answers idStr norm_val, qlookup := qlookup,
                                labelMap := labelMap, custom := custom, c := c })
        | _ => none
    else
      pure (ResolveOut.err st k)

/-- The unknown-key loop over the snapshot of unknown keys. -/
def resolve_unknown_keys (env : Env) (setsData : List JValue) (projName : String) :
    List String → ResolveState → Option ResolveOut
  | [], st => some (ResolveOut.ok st)
  | k :: rest, st => do
    match ← resolve_one env setsData projName st k with
    | ResolveOut.ok st' => resolve_unknown_keys env setsData projName rest st'
    | ResolveOut.err st' key => some (ResolveOut.err st' key)

/-- The completeness scan of `main.create_record` (lines 524-527): collect
the `text` of every lookup entry with truthy `required` whose answer is
absent, `""` or `None`. -/
def missing_required (answers : Dict) : Dict → Option (List JValue)
  | [] => some []
  | p :: rest => do
    let qinfo ← dictConv p.2
    let violated : Bool := truthy (alGetD qinfo "required" .null) &&
      (!(alContains answers p.1) ||
        (match alGet answers p.1 with
         | some (.str "") => true
         | some .null => true
         | _ => false))
    let restMissing ← missing_required answers rest
    pure (if violated then alGetD qinfo "text" .null :: restMissing else restMissing)

/-- `", ".join(missing[:10])`: every joined element must be a string. -/
def join_texts (texts : List JValue) : Option String :=
  (texts.mapM (fun t => match t with | JValue.str s => some s | _ => none)).map (pyJoin ", ")

/-- The POST `/api/projects/{id}/records` route (`main.create_record`,
lines 417-533), starting after the access check: merge the form, build
the lookup, auto-fill, resolve unknown keys (possibly mutating the
custom-question block — each mutation is committed immediately), then run
the completeness check and store the record.  Returns the final state,
the id-supply counter, and either the stored answers or the
`HTTPException(400)` raised. -/
def create_record_route (env : Env) (setsData : List JValue) (proj : ProjCtx)
    (payload : Dict) (s : St) (c : Nat) : Option (St × Nat × Except RouteErr Dict) := do
  let (form, c) ← merged_project_form env setsData proj.name s.custom_questions c
  let qlookup ← question_lookup_from_form form
  let answers := autofill_answers qlookup proj payload
  let labelMap := extend_label_map qlookup []
  let unknown_keys := (answers.map Prod.fst).filter (fun k => ¬ alContains qlookup k)
  let res ← resolve_unknown_keys env setsData proj.name unknown_keys
      { answers := answers, qlookup := qlookup, labelMap := labelMap,
        custom := s.custom_questions, c := c }
  match res with
  | ResolveOut.err st key =>
    pure ({ custom_questions := st.custom, records := s.records }, st.c,
          Except.error (RouteErr.unknownKey key))
  | ResolveOut.ok st => do
    let missing ← missing_required st.answers st.qlookup
    if missing.isEmpty then
      pure ({ custom_questions := st.custom, records := s.records ++ [st.answers] }, st.c,
            Except.ok st.answers)
    else do
      let joined ← join_texts (missing.take 10)
      pure ({ custom_questions := st.custom, records := s.records }, st.c,
            Except.error (RouteErr.missingRequired ("Missing required answers: " ++ joined)))

/-! ### Spec-side projections and claim-language definitions.

Everything below this point up to the lemma section is *not* translated
from the Python source: these are the projections and spec-vocabulary
functions the theorem statements are phrased in. -/

/-- The sections list of a document (empty for any other shape). -/
def doc_sections (doc : JValue) : List JValue :=
  match doc with
  | .obj fs => match alGet fs "sections" with
    | some (.list secs) => secs
    | _ => []
  | _ => []

/-- The questions list of a section (empty for any other shape). -/
def section_questions (sec : JValue) : List JValue :=
  match sec with
  | .obj sf => match alGet sf "questions" with
    | some (.list qs) => qs
    | _ => []
  | _ => []

/-- All question dicts of a document, in section order. -/
def doc_questions (doc : JValue) : List JValue :=
  (doc_sections doc).flatMap section_questions

/-- All question dicts of a custom-question block, in order. -/
def block_questions (block : JValue) : List Dict :=
  (doc_questions block).filterMap (fun q => match q with | .obj qd => some qd | _ => none)

/-- How many questions a custom-question block holds (used to witness
observable mutation of the block). -/
def block_question_count (block : JValue) : Nat :=
  (block_questions block).length

/-- The `options` list of the first question of the first section, as
plain strings (used to witness dropdown-option normalization results). -/
def first_question_options (doc : JValue) : Option (List String) :=
  match (doc_questions doc).head? with
  | some (.obj qd) => match alGet qd "options" with
    | some (.list xs) => some (xs.filterMap (fun x => match x with | .str s => some s | _ => none))
    | _ => none
  | _ => none

/-- An input document in canonical shape: a dict with a `title`, and a
`sections` list of section dicts each holding a `questions` list of
question dicts.  (This is the shape the spec calls "already-canonical".) -/
def canonical_doc_shape (doc : JValue) : Bool :=
  match doc with
  | .obj fs =>
    alContains fs "title" &&
    (match alGet fs "sections" with
     | some (.list secs) => secs.all (fun sec => match sec with
        | .obj sf => match alGet sf "questions" with
          | some (.list qs) => qs.all (fun q => match q with | .obj _ => true | _ => false)
          | _ => false
        | _ => false)
     | _ => false)
  | _ => false

/-- The `id` value of a question dict. -/
def question_id (q : JValue) : Option JValue :=
  match q with
  | .obj qd => alGet qd "id"
  | _ => none

/-- Claim C5's per-question id relation between an input question and its
canonicalized output: an existing id is kept verbatim; a missing id is
replaced by some freshly generated string id. -/
def id_preserved (q q' : JValue) : Prop :=
  (∀ v, question_id q = some v → question_id q' = some v) ∧
  (question_id q = none → ∃ s, question_id q' = some (.str s))

/-- A normalized options list made entirely of strings of length ≤ 1 —
the shape the single-character bug-compatibility heuristic of
`normalize_dropdown_options` re-joins. -/
def options_list_all_short (opts : List JValue) : Bool :=
  (¬ opts.isEmpty) && opts.all (fun x => match x with | .str s => s.length ≤ 1 | _ => false)

/-- A question is idempotence-safe when, if it is a dropdown kind with a
list of options, that list is not entirely single-character strings. -/
def question_options_safe (qd : Dict) : Bool :=
  match alGet qd "type" with
  | some (.str t) =>
    if t = "dropdown" ∨ t = "dropdown_mapped" then
      match alGet qd "options" with
      | some (.list opts) => ¬ options_list_all_short opts
      | _ => true
    else true
  | _ => true

/-- Idempotence safety of a whole document. -/
def doc_options_safe (doc : JValue) : Bool :=
  (doc_questions doc).all (fun q => match q with
    | .obj qd => question_options_safe qd
    | _ => true)

/-- The claim's date pattern `YYYY-MM-DD`: exactly ten characters, four
digits, dash, two digits, dash, two digits. -/
def matches_YYYY_MM_DD (s : String) : Bool :=
  match s.toList with
  | [y1, y2, y3, y4, h1, m1, m2, h2, d1, d2] =>
    y1.isDigit ∧ y2.isDigit ∧ y3.isDigit ∧ y4.isDigit ∧ h1 = '-' ∧
    m1.isDigit ∧ m2.isDigit ∧ h2 = '-' ∧ d1.isDigit ∧ d2.isDigit
  | _ => false

/-- The inferred type of a scalar value as the code computes it
(claim C7 amended: the date case fires on any string whose stripped form
has length ten with a dash as fifth character, not only on strings
matching `YYYY-MM-DD`). -/
def spec_inferred_type (raw : JValue) : String :=
  match raw with
  | .bool _ => "yes_no"
  | .int _ => "numeric"
  | .float _ => "numeric"
  | .str s =>
    if utils_date_test (pyStrip s) then "date"
    else if s.length > 80 then "long_text" else "short_text"
  | _ => "short_text"

/-- A version document suitable for merging, with a string title and a
list of section dicts each having a string title. -/
def merge_input_shape (sd : JValue) : Bool :=
  match sd with
  | .obj fs =>
    (match alGet fs "title" with | some (.str _) => true | _ => false) &&
    (match alGet fs "sections" with
     | some (.list secs) => secs.all (fun sec => match sec with
        | .obj sf => match alGet sf "title" with | some (.str _) => true | _ => false
        | _ => false)
     | _ => false)
  | _ => false

/-- The title of a version document (under `merge_input_shape`). -/
def version_title (sd : JValue) : String :=
  match sd with
  | .obj fs => match alGet fs "title" with
    | some (.str t) => t
    | _ => ""
  | _ => ""

/-- The title of a section dict (under `merge_input_shape`). -/
def sec_title_of (sec : JValue) : String :=
  match sec with
  | .obj sf => match alGet sf "title" with
    | some (.str t) => t
    | _ => ""
  | _ => ""

/-- The `questions` value of a section dict, as the merge copies it
(`sec.get("questions", [])`). -/
def sec_questions_value (sec : JValue) : JValue :=
  match sec with
  | .obj sf => alGetD sf "questions" (.list [])
  | _ => .list []

/-- Every section of the document is a dict with a string title. -/
def sections_titled (doc : JValue) : Bool :=
  (doc_sections doc).all (fun sec => match sec with
    | .obj sf => match alGet sf "title" with
      | some (.str _) => true
      | _ => false
    | _ => false)

/-- The merged sections as the spec words them: each assigned version's
sections in position order retitled `"{version.title} — {section.title}"`,
then the custom block's sections retitled `"Custom — {section.title}"`. -/
def merge_spec_sections (versions : List JValue) (customC : JValue) : List JValue :=
  versions.flatMap (fun v => (doc_sections v).map (fun sec =>
    JValue.obj [("title", .str (version_title v ++ " — " ++ sec_title_of sec)),
                ("questions", sec_questions_value sec)]))
  ++ (doc_sections customC).map (fun sec =>
    JValue.obj [("title", .str ("Custom" ++ " — " ++ sec_title_of sec)),
                ("questions", sec_questions_value sec)])

/-- Missing / empty-string / null answer for a question id (the claim's
completeness condition). -/
def answer_missing_or_empty (answers : Dict) (qid : String) : Bool :=
  match alGet answers qid with
  | none => true
  | some (.str "") => true
  | some .null => true
  | some _ => false

/-- A lookup entry violates completeness when its `required` is the
boolean `true` and its answer is missing, `""` or `None`. -/
def entry_violates (answers : Dict) (p : String × JValue) : Bool :=
  (match p.2 with
   | .obj qinfo => match alGet qinfo "required" with
     | some (.bool true) => true
     | _ => false
   | _ => false) && answer_missing_or_empty answers p.1

/-- The texts of the violating lookup entries, in lookup order (the
claim's description of the error payload). -/
def spec_violation_texts (ql answers : Dict) : List JValue :=
  (ql.filter (entry_violates answers)).map (fun p => match p.2 with
    | .obj qinfo => alGetD qinfo "text" .null
    | _ => .null)

/-- Every lookup entry is a dict whose `required` is a boolean, `None` or
absent (so Python truthiness of `required` coincides with
`required = true`). -/
def lookup_required_wf (ql : Dict) : Bool :=
  ql.all (fun p => match p.2 with
    | .obj qinfo => match alGet qinfo "required" with
      | none => true
      | some .null => true
      | some (.bool _) => true
      | _ => false
    | _ => false)

/-- Every lookup entry is a dict whose `text` is a string (so the error
join cannot fail). -/
def lookup_texts_wf (ql : Dict) : Bool :=
  ql.all (fun p => match p.2 with
    | .obj qinfo => match alGet qinfo "text" with
      | some (.str _) => true
      | _ => false
    | _ => false)

/-- Does the registry hold a non-deleted version named `name` with id
`qsid`? -/
def live_named_version (db : Registry) (name : String) (qsid : Nat) : Bool :=
  db.question_sets.any (fun qs => qs.id = qsid ∧ qs.name = name ∧ ¬ qs.deleted)

/-- Database well-formedness for the registry slice: the unique
constraint on `(project_id, question_set_id)`, referential integrity of
assignments, and primary-key uniqueness of version ids. -/
def registry_wf (db : Registry) : Prop :=
  db.assignments.Pairwise
    (fun a b => ¬ (a.project_id = b.project_id ∧ a.question_set_id = b.question_set_id)) ∧
  (∀ a ∈ db.assignments, ∃ qs ∈ db.question_sets, qs.id = a.question_set_id) ∧
  db.question_sets.Pairwise (fun x y => x.id ≠ y.id)

/-- A deterministic id supply and a trivial parser, used for the concrete
counterexamples and witnesses. -/
def cexEnv : Env := { gen := fun n => "uuid-" ++ toString n, jloads := fun _ => none }

/-- A stored question-set document with one required question, used by the
concrete ingestion scenarios. -/
def cex_req_set : JValue :=
  .obj [("title", .str "Daily"), ("sections", .list [
    .obj [("title", .str "Main"), ("questions", .list [
      .obj [("id", .str "r1"), ("text", .str "Req?"), ("type", .str "short_text"),
            ("required", .bool true)]])]])]

/-- An empty custom-question block. -/
def cex_empty_custom : JValue := .obj [("title", .str "Custom"), ("sections", .list [])]

/-- Initial per-project state: empty block, no records. -/
def cex_state0 : St := { custom_questions := cex_empty_custom, records := [] }

/-- The project context of the concrete scenarios. -/
def cex_proj : ProjCtx := { name := "Alpha", focalpoint_code := some 7 }

/-- The lookup the merged form of `cex_req_set` produces. -/
def cex_req_lookup : Dict :=
  [("r1", lookup_entry_of [("id", .str "r1"), ("text", .str "Req?"),
    ("type", .str "short_text"), ("required", .bool true)])]

/-- The resolver state after ingesting an empty payload against
`cex_req_set`. -/
def cex_resolve_st : ResolveState :=
  { answers := [], qlookup := cex_req_lookup,
    labelMap := extend_label_map cex_req_lookup [],
    custom := cex_empty_custom, c := 0 }

/-- Invariant of a question dict established by one pass of
`normalize_dropdown_options`: a dropdown-kind question never stores its
`options` as a raw string, and a stored `options` list is a list of
string values that are already stripped and non-empty. -/
def options_ok (qd : Dict) : Prop :=
  ∀ t, alGet qd "type" = some (.str t) → (t = "dropdown" ∨ t = "dropdown_mapped") →
    (∀ s, ¬ alGet qd "options" = some (.str s)) ∧
    ∀ opts, alGet qd "options" = some (.list opts) →
      ∃ ls : List String, opts = ls.map JValue.str ∧ ∀ l ∈ ls, pyStrip l = l ∧ l ≠ ""

/-- Invariant of a question dict established by one pass of
`normalize_dropdown_options`: a `dropdown_mapped` question stores its
`value_map` as a dict. -/
def value_map_ok (qd : Dict) : Prop :=
  alGet qd "type" = some (.str "dropdown_mapped") →
    ∃ fs, alGet qd "value_map" = some (.obj fs)

/-- An options-list document the single-character rejoin heuristic of
`normalize_dropdown_options` breaks: a dropdown whose options normalize
to `["a", "b"]` on the first canonicalization pass and then to `["ab"]`
on the second. -/
def cex_short_doc : JValue :=
  .obj [("title", .str "T"), ("sections", .list [
    .obj [("title", .str "S"), ("questions", .list [
      .obj [("id", .str "q1"), ("text", .str "t"), ("type", .str "dropdown"),
            ("options", .list [.str "a ", .str "b"])]])]])]

/-- A dropdown document whose options arrive as a newline-separated
string (the documented multi-line input shape). -/
def cex_rag_doc : JValue :=
  .obj [("title", .str "T"), ("sections", .list [
    .obj [("title", .str "S"), ("questions", .list [
      .obj [("id", .str "q1"), ("text", .str "Colour"), ("type", .str "dropdown"),
            ("options", .str "Red\nAmber\nGreen")]])]])]

/-- The canonical form of `cex_rag_doc`. -/
def cex_rag_canon : JValue :=
  .obj [("title", .str "T"), ("sections", .list [
    .obj [("title", .str "S"), ("questions", .list [
      .obj [("id", .str "q1"), ("text", .str "Colour"), ("type", .str "dropdown"),
            ("options", .list [.str "Red", .str "Amber", .str "Green"])]])]])]

/-- A registry with one version of "daily" (id 1) assigned to project 10
at position 0, used to witness the auto-upgrade invariant. -/
def cex_db : Registry :=
  { question_sets := [⟨1, "daily", false, .null⟩], assignments := [⟨10, 1, 0⟩] }

/-- The registry after creating a second "daily" version (id 2): the
project's assignment has been rewritten in place. -/
def cex_db_after : Registry :=
  { question_sets := [⟨1, "daily", false, .null⟩,
      ⟨2, "daily", false, .obj [("title", .str "daily"), ("sections", .list [
        .obj [("title", .str "Section"), ("questions", .list [])]])]⟩],
    assignments := [⟨10, 2, 0⟩] }

/-- The payload of the label-dedup scenario. -/
def cex_payload : Dict := [("Local stakeholder sentiment", .str "positive")]

/-- The custom block after the first ingestion of `cex_payload` against
an empty project: one synthesized optional question. -/
def cex_custom1 : JValue :=
  .obj [("title", .str "Custom"), ("sections", .list [
    .obj [("title", .str "Auto-created"), ("questions", .list [
      .obj [("id", .str "uuid-0"), ("text", .str "Local stakeholder sentiment"),
            ("required", .bool false), ("type", .str "short_text")]])]])]

/-- Project state after the first ingestion call. -/
def cex_s1 : St :=
  { custom_questions := cex_custom1, records := [[("uuid-0", .str "positive")]] }

/-- Project state after the second, identical ingestion call: same
block, one more record. -/
def cex_s2 : St :=
  { custom_questions := cex_custom1,
    records := [[("uuid-0", .str "positive")], [("uuid-0", .str "positive")]] }

/-- The merged form the second call builds from `cex_s1`. -/
def cex_form2 : JValue :=
  .obj [("title", .str "Alpha"), ("sections", .list [
    .obj [("title", .str "Custom — Auto-created"), ("questions", .list [
      .obj [("id", .str "uuid-0"), ("text", .str "Local stakeholder sentiment"),
            ("required", .bool false), ("type", .str "short_text")]])]])]

/-- The question lookup of `cex_form2`. -/
def cex_ql2 : Dict :=
  [("uuid-0", .obj [("text", .str "Local stakeholder sentiment"),
    ("type", .str "short_text"), ("required", .bool false),
    ("options", .null), ("value_map", .null)])]

/-! ### Association-list dict lemmas -/

theorem alGet_nil (k : String) : alGet [] k = none := rfl

theorem alGet_cons (k k' : String) (v : JValue) (l : Dict) :
    alGet ((k', v) :: l) k = if k' = k then some v else alGet l k := rfl

theorem alGet_append (k : String) (l1 l2 : Dict) :
    alGet (l1 ++ l2) k = ((alGet l1 k).or (alGet l2 k)) := by
  induction l1 with
  | nil => simp [alGet]
  | cons p rest ih =>
    rcases p with ⟨k', v⟩
    by_cases h : k' = k <;> simp [alGet_cons, h, ih]

theorem alContains_iff (l : Dict) (k : String) :
    alContains l k = (alGet l k).isSome := rfl

theorem alGet_alSet_self (l : Dict) (k : String) (v : JValue) :
    alGet (alSet l k v) k = some v := by
  induction l with
  | nil => simp [alSet, alGet]
  | cons p rest ih =>
    rcases p with ⟨k', v'⟩
    by_cases h : k' = k <;> simp [alSet, alGet_cons, h, ih]

theorem alGet_alSet_ne (l : Dict) (k k' : String) (v : JValue) (h : k' ≠ k) :
    alGet (alSet l k v) k' = alGet l k' := by
  induction l with
  | nil =>
    show alGet [(k, v)] k' = alGet [] k'
    rw [alGet_cons, if_neg (fun hh => h hh.symm)]
  | cons p rest ih =>
    rcases p with ⟨k0, v0⟩
    by_cases h0 : k0 = k
    · subst h0
      have e : alSet ((k0, v0) :: rest) k0 v = (k0, v) :: rest := by simp [alSet]
      rw [e, alGet_cons, alGet_cons, if_neg (fun hh => h hh.symm),
        if_neg (fun hh => h hh.symm)]
    · have e : alSet ((k0, v0) :: rest) k v = (k0, v0) :: alSet rest k v := by simp [alSet, h0]
      rw [e, alGet_cons, alGet_cons]
      by_cases hk : k0 = k'
      · simp [hk]
      · simp only [hk, if_false]
        exact ih

theorem alSet_self (l : Dict) (k : String) (v : JValue) (h : alGet l k = some v) :
    alSet l k v = l := by
  induction l with
  | nil => simp [alGet] at h
  | cons p rest ih =>
    rcases p with ⟨k0, v0⟩
    by_cases h0 : k0 = k
    · subst h0
      rw [alGet_cons, if_pos rfl] at h
      cases h
      simp [alSet]
    · rw [alGet_cons, if_neg h0] at h
      simp [alSet, h0, ih h]

theorem alSetdefault_of_contains (l : Dict) (k : String) (v : JValue)
    (h : alContains l k = true) : alSetdefault l k v = l := by
  simp [alSetdefault, h]

theorem alSetdefault_of_not_contains (l : Dict) (k : String) (v : JValue)
    (h : ¬ alContains l k = true) : alSetdefault l k v = l ++ [(k, v)] := by
  simp [alSetdefault, h]

theorem alGet_alSetdefault_ne (l : Dict) (k k' : String) (v : JValue) (h : k' ≠ k) :
    alGet (alSetdefault l k v) k' = alGet l k' := by
  unfold alSetdefault
  by_cases hc : alContains l k = true
  · rw [if_pos hc]
  · rw [if_neg hc, alGet_append]
    have h1 : alGet [(k, v)] k' = none := by
      rw [alGet_cons, if_neg (fun hh => h hh.symm)]; rfl
    rw [h1]
    cases alGet l k' <;> rfl

theorem alGet_alSetdefault_same (l : Dict) (k : String) (v : JValue) :
    alGet (alSetdefault l k v) k = some ((alGet l k).getD v) := by
  unfold alSetdefault
  by_cases hc : alContains l k = true
  · rw [if_pos hc]
    rw [alContains_iff] at hc
    cases hg : alGet l k with
    | some v' => simp [hg]
    | none => simp [hg] at hc
  · rw [if_neg hc, alGet_append]
    rw [alContains_iff] at hc
    cases hg : alGet l k with
    | some v' => simp [hg] at hc
    | none => simp [hg, alGet_cons]

/-! ### Preservation lemmas for the canonicalizer -/

theorem alGet_normalize_options_ne (q : Dict) (k : String) (h : k ≠ "options") :
    alGet (normalize_options_field q) k = alGet q k := by
  unfold normalize_options_field
  repeat' split
  all_goals dsimp only
  repeat' split
  all_goals first
    | exact alGet_alSet_ne _ _ _ _ h
    | rfl

theorem alGet_normalize_value_map_ne (env : Env) (q : Dict) (k : String)
    (h : k ≠ "value_map") :
    alGet (normalize_value_map_field env q) k = alGet q k := by
  unfold normalize_value_map_field
  repeat' split
  all_goals dsimp only
  repeat' split
  all_goals first
    | exact alGet_alSet_ne _ _ _ _ h
    | rfl

theorem alGet_normalize_ne (env : Env) (q : Dict) (k : String)
    (h1 : k ≠ "options") (h2 : k ≠ "value_map") :
    alGet (normalize_dropdown_options env q) k = alGet q k := by
  unfold normalize_dropdown_options
  rw [alGet_normalize_value_map_ne _ _ _ h2, alGet_normalize_options_ne _ _ h1]

/-! ### Inference lemmas -/

theorem alGet_alSet_type_required (l : Dict) (v : JValue) :
    alGet (alSet l "type" v) "required" = alGet l "required" :=
  alGet_alSet_ne l "type" "required" v (by decide)

theorem alGet_alSet_options_required (l : Dict) (v : JValue) :
    alGet (alSet l "options" v) "required" = alGet l "required" :=
  alGet_alSet_ne l "options" "required" v (by decide)

theorem alGet_alSet_value_map_required (l : Dict) (v : JValue) :
    alGet (alSet l "value_map" v) "required" = alGet l "required" :=
  alGet_alSet_ne l "value_map" "required" v (by decide)

/-- The question dict built by either copy of
`_infer_question_from_value` always carries `required = False`: the field
is set at construction and no later assignment touches it (the structured
metadata path never reads a `required` override). -/
theorem infer_core_required_false (dt : String → Bool) (env : Env) (label raw : JValue)
    (c : Nat) :
    alGet (infer_question_core dt env label raw c).1 "required" = some (.bool false) := by
  unfold infer_question_core
  cases raw <;>
    · dsimp only
      repeat' split
      all_goals
        simp [alGet_alSet_type_required, alGet_alSet_options_required,
          alGet_alSet_value_map_required, alGet_cons]

/-- A lookup entry whose `required` is the boolean `False` contributes
nothing to the completeness scan: removing it changes neither the
outcome nor the collected texts. -/
theorem missing_required_skips_optional (answers : Dict) (ql1 ql2 : Dict) (qid : String)
    (qinfo : Dict) (hreq : alGet qinfo "required" = some (.bool false)) :
    missing_required answers (ql1 ++ (qid, .obj qinfo) :: ql2) =
      missing_required answers (ql1 ++ ql2) := by
  induction ql1 with
  | nil =>
    simp only [List.nil_append]
    conv_lhs => rw [missing_required]
    simp [dictConv, alGetD, hreq, truthy]
  | cons p rest ih =>
    rcases p with ⟨k0, v0⟩
    simp only [List.cons_append]
    unfold missing_required
    cases v0 <;> simp [dictConv, ih]

/-- Structure of any `ensure_question_ids` result: a dict whose
`sections` is the rebuilt list and whose `title` is present. -/
theorem ensure_question_ids_shape (env : Env) (doc y : JValue) (c c' : Nat)
    (h : ensure_question_ids env doc c = some (y, c')) :
    ∃ fs newSections, y = .obj fs ∧ alGet fs "sections" = some (.list newSections) ∧
      alContains fs "title" = true := by
  unfold ensure_question_ids at h
  simp only [Option.bind_eq_bind, Option.bind_eq_some, Option.pure_def, Option.some_inj] at h
  obtain ⟨cd, hcd, secs, hsecs, ⟨newSections, c2⟩, hens, hy⟩ := h
  refine ⟨_, newSections, congrArg Prod.fst hy.symm, ?_, ?_⟩
  · rw [alGet_alSetdefault_ne _ _ _ _ (by decide), alGet_alSet_self]
  · rw [alContains_iff, alGet_alSetdefault_same]
    rfl

/-- Membership in `block_questions` from a section member whose
`questions` list holds the question. -/
theorem block_questions_mem (fs : Dict) (secs : List JValue) (sf : Dict) (qs : List JValue)
    (qd : Dict)
    (hsecs : alGet fs "sections" = some (.list secs))
    (hmem : JValue.obj sf ∈ secs)
    (hqs : alGet sf "questions" = some (.list qs))
    (hq : JValue.obj qd ∈ qs) :
    qd ∈ block_questions (.obj fs) := by
  unfold block_questions doc_questions doc_sections section_questions
  dsimp only
  rw [hsecs]
  rw [List.mem_filterMap]
  refine ⟨.obj qd, ?_, rfl⟩
  rw [List.mem_flatMap]
  refine ⟨.obj sf, hmem, ?_⟩
  dsimp only
  rw [hqs]
  exact hq

/-- Every `canonical_project_custom_questions` result has the
`ensure_question_ids` output shape. -/
theorem canonical_custom_shape (env : Env) (raw y : JValue) (c c' : Nat)
    (h : canonical_project_custom_questions env raw c = some (y, c')) :
    ∃ fs newSections, y = .obj fs ∧ alGet fs "sections" = some (.list newSections) ∧
      alContains fs "title" = true := by
  unfold canonical_project_custom_questions at h
  split at h
  · split at h
    · exact ensure_question_ids_shape _ _ _ _ _ h
    · exact ensure_question_ids_shape _ _ _ _ _ h
  · exact ensure_question_ids_shape _ _ _ _ _ h

/-- The section updated by `add_to_first_matching` is a member of its
result, and it carries the appended question at the end of its
`questions`. -/
theorem add_to_first_matching_mem (mt : JValue → Bool) (q : Dict) (l l' : List JValue)
    (hany : l.any mt = true)
    (h : add_to_first_matching mt q l = some l') :
    ∃ sf qs, JValue.obj (alSet sf "questions" (.list (qs ++ [JValue.obj q]))) ∈ l' := by
  induction l generalizing l' with
  | nil => simp at hany
  | cons s rest ih =>
    unfold add_to_first_matching at h
    by_cases hs : mt s
    · rw [if_pos hs] at h
      simp only [Option.bind_eq_bind, Option.bind_eq_some, Option.pure_def,
        Option.some_inj] at h
      obtain ⟨sf, hsf, h⟩ := h
      split at h <;>
      · simp only [Option.bind_eq_bind, Option.bind_eq_some, Option.some_inj] at h
        obtain ⟨qs, hqs, hl⟩ := h
        exact ⟨sf, qs, hl ▸ List.mem_cons_self _ _⟩
    · rw [if_neg hs] at h
      simp only [Option.bind_eq_bind, Option.bind_eq_some, Option.pure_def,
        Option.some_inj] at h
      obtain ⟨rest', hrest, hl⟩ := h
      have hany' : rest.any mt = true := by
        simp only [List.any_cons, hs, Bool.false_or] at hany
        exact hany
      obtain ⟨sf, qs, hmem⟩ := ih rest' hany' hrest
      exact ⟨sf, qs, hl ▸ List.mem_cons_of_mem _ hmem⟩

/-- `crud.add_project_custom_question` stores the caller's question with
`required` defaulted to `True` when the caller omitted the field; the
stored question keeps the caller's `text`. -/
theorem add_custom_question_default_required (env : Env) (custom : JValue) (title : String)
    (q : Dict) (c : Nat) (cq' : JValue) (c' : Nat)
    (hnr : alContains q "required" = false)
    (h : add_project_custom_question env custom title q c = some (cq', c')) :
    ∃ qd, qd ∈ block_questions cq' ∧ alGet qd "required" = some (.bool true) ∧
      alGet qd "text" = alGet q "text" := by
  have hqget : alGet q "required" = none := by
    rw [alContains_iff] at hnr
    exact Option.not_isSome_iff_eq_none.mp (by simp [hnr])
  unfold add_project_custom_question at h
  simp only [Option.bind_eq_bind, Option.bind_eq_some, Option.pure_def, Option.some_inj] at h
  obtain ⟨⟨cq, c1⟩, hcq, cqd, hcqd, secs, hsecs, h⟩ := h
  dsimp only at h
  have hq3req : alGet (alSetdefault (alSetdefault (alSetdefault q "required" (.bool true))
      "type" (.str "short_text")) "id" (.str (env.gen c1))) "required" =
      some (.bool true) := by
    rw [alGet_alSetdefault_ne _ _ _ _ (by decide),
      alGet_alSetdefault_ne _ _ _ _ (by decide), alGet_alSetdefault_same, hqget]
    rfl
  have hq3text : alGet (alSetdefault (alSetdefault (alSetdefault q "required" (.bool true))
      "type" (.str "short_text")) "id" (.str (env.gen c1))) "text" = alGet q "text" := by
    rw [alGet_alSetdefault_ne _ _ _ _ (by decide),
      alGet_alSetdefault_ne _ _ _ _ (by decide), alGet_alSetdefault_ne _ _ _ _ (by decide)]
  split at h
  · -- an existing section matched: the question is appended inside it
    rw [Option.bind_eq_some] at h
    obtain ⟨secs', hsecs', hy⟩ := h
    rw [Option.some_inj, Prod.mk.injEq] at hy
    obtain ⟨hy1, _⟩ := hy
    subst hy1
    obtain ⟨sf, qs, hmem⟩ := add_to_first_matching_mem _ _ _ _ (by assumption) hsecs'
    refine ⟨_, ?_, hq3req, hq3text⟩
    exact block_questions_mem _ _ (alSet sf "questions"
        (.list (qs ++ [JValue.obj _]))) _ _
      (alGet_alSet_self _ _ _) hmem (alGet_alSet_self _ _ _) (by simp)
  · -- no section matched: a fresh section holding exactly the question
    rw [Option.bind_eq_some] at h
    obtain ⟨secs', hsecs', hy⟩ := h
    rw [Option.some_inj] at hsecs'
    rw [Option.some_inj, Prod.mk.injEq] at hy
    obtain ⟨hy1, _⟩ := hy
    subst hy1
    refine ⟨_, ?_, hq3req, hq3text⟩
    refine block_questions_mem _ _ [("title", .str title),
        ("questions", .list [.obj (alSetdefault (alSetdefault (alSetdefault q "required"
          (.bool true)) "type" (.str "short_text")) "id" (.str (env.gen c1)))])] _ _
      (alGet_alSet_self _ _ _) ?_ ?_ (List.mem_singleton.mpr rfl)
    · rw [← hsecs']
      simp
    · rw [alGet_cons, if_neg (by decide), alGet_cons, if_pos rfl]

/-- C10: every question definition synthesized by answer ingestion's type
inference (both the route's `_infer_question_from_value` and the `utils`
copy) carries `required = False`; a lookup entry whose `required` is
`False` contributes nothing to the completeness scan, so an auto-created
question can never by itself cause a completeness failure; in contrast, a
question added through `add_project_custom_question` with the `required`
field omitted is stored with `required = True`. -/
theorem C10_synthesized_questions_optional
    (env : Env) (label raw : JValue) (c : Nat)
    (answers ql1 ql2 : Dict) (qid : String) (qinfo : Dict)
    (custom : JValue) (title : String) (q : Dict) (c0 : Nat) (cq' : JValue) (c0' : Nat)
    (hreq : alGet qinfo "required" = some (.bool false))
    (hnr : alContains q "required" = false)
    (hadd : add_project_custom_question env custom title q c0 = some (cq', c0')) :
    alGet (infer_question_from_value_main env label raw c).1 "required" = some (.bool false) ∧
    alGet (infer_question_from_value env label raw c).1 "required" = some (.bool false) ∧
    missing_required answers (ql1 ++ (qid, .obj qinfo) :: ql2) =
      missing_required answers (ql1 ++ ql2) ∧
    (∃ qd, qd ∈ block_questions cq' ∧ alGet qd "required" = some (.bool true) ∧
      alGet qd "text" = alGet q "text") :=
  ⟨infer_core_required_false _ _ _ _ _,
   infer_core_required_false _ _ _ _ _,
   missing_required_skips_optional _ _ _ _ _ hreq,
   add_custom_question_default_required _ _ _ _ _ _ _ hnr hadd⟩

theorem C10_synthesized_questions_optional_witness :
    alGet (infer_question_from_value_main cexEnv (.str "Q") (.str "v") 0).1 "required" =
      some (.bool false) ∧
    alGet (infer_question_from_value cexEnv (.str "Q") (.str "v") 0).1 "required" =
      some (.bool false) ∧
    missing_required [] ([] ++ ("x", .obj [("required", .bool false)]) :: []) =
      missing_required [] ([] ++ []) ∧
    (∃ qd, qd ∈ block_questions (JValue.obj [("title", .str "Custom"), ("sections", .list [
        .obj [("title", .str "S"), ("questions", .list [
          .obj [("text", .str "T"), ("required", .bool true), ("type", .str "short_text"),
                ("id", .str "uuid-0")]])]])]) ∧
      alGet qd "required" = some (.bool true) ∧
      alGet qd "text" = alGet [("text", JValue.str "T")] "text") :=
  C10_synthesized_questions_optional cexEnv (.str "Q") (.str "v") 0
    [] [] [] "x" [("required", .bool false)]
    (.obj [("title", .str "Custom"), ("sections", .list [])]) "S" [("text", .str "T")] 0
    _ _ rfl rfl rfl

/-! ### The auto-fill stage -/

theorem mem_alSet (l : Dict) (k : String) (v : JValue) (p : String × JValue)
    (h : p ∈ alSet l k v) : p = (k, v) ∨ p ∈ l := by
  induction l with
  | nil =>
    simp [alSet] at h
    exact Or.inl h
  | cons p0 rest ih =>
    rcases p0 with ⟨k0, v0⟩
    by_cases h0 : k0 = k
    · subst h0
      have e : alSet ((k0, v0) :: rest) k0 v = (k0, v) :: rest := by simp [alSet]
      rw [e] at h
      rcases List.mem_cons.mp h with h1 | h1
      · exact Or.inl h1
      · exact Or.inr (List.mem_cons_of_mem _ h1)
    · have e : alSet ((k0, v0) :: rest) k v = (k0, v0) :: alSet rest k v := by
        simp [alSet, h0]
      rw [e] at h
      rcases List.mem_cons.mp h with h1 | h1
      · exact Or.inr (h1 ▸ List.mem_cons_self _ _)
      · rcases ih h1 with h2 | h2
        · exact Or.inl h2
        · exact Or.inr (List.mem_cons_of_mem _ h2)

/-- Every value stored by the question loop of
`question_lookup_from_form` is a `lookup_entry_of` projection — the
fixed key set `text`/`type`/`required`/`options`/`value_map`. -/
theorem lookup_questions_loop_entries (qs : List JValue) (out ql : Dict)
    (hout : ∀ p ∈ out, ∃ qd, p.2 = lookup_entry_of qd)
    (h : lookup_questions_loop qs out = some ql) :
    ∀ p ∈ ql, ∃ qd, p.2 = lookup_entry_of qd := by
  induction qs generalizing out with
  | nil =>
    unfold lookup_questions_loop at h
    rw [Option.some_inj] at h
    exact h ▸ hout
  | cons q rest ih =>
    unfold lookup_questions_loop at h
    simp only [Option.bind_eq_bind, Option.bind_eq_some] at h
    obtain ⟨qd, hqd, idv, hidv, h⟩ := h
    refine ih _ ?_ h
    intro p hp
    rcases mem_alSet _ _ _ _ hp with h1 | h1
    · exact ⟨qd, by rw [h1]⟩
    · exact hout p h1

/-- Same invariant through the section loop. -/
theorem lookup_sections_loop_entries (secs : List JValue) (out ql : Dict)
    (hout : ∀ p ∈ out, ∃ qd, p.2 = lookup_entry_of qd)
    (h : lookup_sections_loop secs out = some ql) :
    ∀ p ∈ ql, ∃ qd, p.2 = lookup_entry_of qd := by
  induction secs generalizing out with
  | nil =>
    unfold lookup_sections_loop at h
    rw [Option.some_inj] at h
    exact h ▸ hout
  | cons sec rest ih =>
    unfold lookup_sections_loop at h
    simp only [Option.bind_eq_bind, Option.bind_eq_some] at h
    obtain ⟨sf, hsf, qs, hqs, out', hout', h⟩ := h
    exact ih _ (lookup_questions_loop_entries _ _ _ hout hout') h

/-- `question_lookup_from_form` only stores the fixed projection. -/
theorem question_lookup_entries (form : JValue) (ql : Dict)
    (h : question_lookup_from_form form = some ql) :
    ∀ p ∈ ql, ∃ qd, p.2 = lookup_entry_of qd := by
  unfold question_lookup_from_form at h
  simp only [Option.bind_eq_bind, Option.bind_eq_some] at h
  obtain ⟨f, hf, secs, hsecs, h⟩ := h
  exact lookup_sections_loop_entries _ _ _ (by intro p hp; cases hp) h

/-- The auto-fill loop never changes the answers when fed entries without
an `auto` key. -/
theorem autofill_answers_noop (ql : Dict) (proj : ProjCtx) (answers : Dict)
    (hql : ∀ p ∈ ql, ∃ qd, p.2 = lookup_entry_of qd) :
    autofill_answers ql proj answers = answers := by
  induction ql generalizing answers with
  | nil => rfl
  | cons p rest ih =>
    unfold autofill_answers
    rw [List.foldl_cons]
    obtain ⟨qd, hqd⟩ := hql p (List.mem_cons_self _ _)
    have step : (match p.2 with
        | JValue.obj fields =>
          match alGet fields "auto" with
          | some (.obj auto) =>
            match alGet auto "source" with
            | some (.str src) =>
              if src = "project_name" then alSet answers p.1 (.str proj.name)
              else if src = "project_focalpoint_code" then
                match proj.focalpoint_code with
                | some n => alSet answers p.1 (.int n)
                | none => answers
              else answers
            | _ => answers
          | _ => answers
        | _ => answers) = answers := by
      rw [hqd]
      unfold lookup_entry_of
      dsimp only
      rfl
    have hrest : ∀ p' ∈ rest, ∃ qd, p'.2 = lookup_entry_of qd :=
      fun p' hp' => hql p' (List.mem_cons_of_mem _ hp')
    calc List.foldl _ _ rest = autofill_answers rest proj _ := rfl
      _ = answers := by
          rw [show (match p.2 with
            | JValue.obj fields =>
              match alGet fields "auto" with
              | some (.obj auto) =>
                match alGet auto "source" with
                | some (.str src) =>
                  if src = "project_name" then alSet answers p.1 (.str proj.name)
                  else if src = "project_focalpoint_code" then
                    match proj.focalpoint_code with
                    | some n => alSet answers p.1 (.int n)
                    | none => answers
                  else answers
                | _ => answers
              | _ => answers
            | _ => answers) = answers from step]
          exact ih _ hrest

/-- C1 (code bug): the record route's auto-fill stage reads the `auto`
binding from the merged form's *lookup entry*, but
`question_lookup_from_form` restricts every entry to the fixed key set
`text`/`type`/`required`/`options`/`value_map` and drops `auto`; the
loop's dict test therefore never fires and the answers map is returned
unchanged for every form, project context and payload — no question is
ever auto-filled from the project, contrary to the claim. -/
theorem C1_autofill_never_fires (form : JValue) (ql : Dict) (proj : ProjCtx) (answers : Dict)
    (h : question_lookup_from_form form = some ql) :
    autofill_answers ql proj answers = answers :=
  autofill_answers_noop _ _ _ (question_lookup_entries _ _ h)

theorem C1_autofill_never_fires_witness :
    question_lookup_from_form (.obj [("title", .str "F"), ("sections", .list [
        .obj [("title", .str "S"), ("questions", .list [
          .obj [("id", .str "q1"), ("text", .str "Project name?"),
                ("type", .str "short_text"), ("required", .bool false),
                ("auto", .obj [("source", .str "project_name")])]])]])]) =
      some [("q1", lookup_entry_of
        [("id", .str "q1"), ("text", .str "Project name?"),
         ("type", .str "short_text"), ("required", .bool false),
         ("auto", .obj [("source", .str "project_name")])])] ∧
    autofill_answers
      [("q1", lookup_entry_of
        [("id", .str "q1"), ("text", .str "Project name?"),
         ("type", .str "short_text"), ("required", .bool false),
         ("auto", .obj [("source", .str "project_name")])])]
      { name := "Alpha", focalpoint_code := some 7 } [] = [] :=
  ⟨rfl, C1_autofill_never_fires
    (.obj [("title", .str "F"), ("sections", .list [
      .obj [("title", .str "S"), ("questions", .list [
        .obj [("id", .str "q1"), ("text", .str "Project name?"),
              ("type", .str "short_text"), ("required", .bool false),
              ("auto", .obj [("source", .str "project_name")])]])]])]) _ _ _ rfl⟩

/-- C7 (amended): type inference on a value without a type override
(`utils.infer_question_from_value` on a non-dict value) assigns:
boolean → `yes_no` with the value normalized to the literal strings
`"yes"`/`"no"` (normalization also accepts `true,t,1,yes,y` /
`false,f,0,no,n` after strip+lowercase, and the raw integers 0/1);
int or float (excluding booleans) → `numeric`; a string whose stripped
form has length 10 with `-` as its fifth character → `date` (this is
weaker than the claimed full `YYYY-MM-DD` pattern); a string longer than
80 characters → `long_text`; everything else → `short_text`.  Values
other than booleans pass through unchanged. -/
theorem C7_type_inference (env : Env) (label raw : JValue) (c : Nat) (s1 s2 : String)
    (hraw : ∀ fs, raw ≠ .obj fs)
    (h1 : pyLower (pyStrip s1) ∈ ["true", "t", "1", "yes", "y"])
    (h2 : pyLower (pyStrip s2) ∈ ["false", "f", "0", "no", "n"]) :
    alGet (infer_question_from_value env label raw c).1 "type" =
      some (.str (spec_inferred_type raw)) ∧
    (infer_question_from_value env label raw c).2.1 =
      (match raw with
        | .bool b => .str (if b then "yes" else "no")
        | v => v) ∧
    normalize_yes_no (.str s1) = .str "yes" ∧
    normalize_yes_no (.str s2) = .str "no" ∧
    normalize_yes_no (.int 1) = .str "yes" ∧
    normalize_yes_no (.int 0) = .str "no" := by
  refine ⟨?_, ?_, ?_, ?_, rfl, rfl⟩
  · unfold infer_question_from_value infer_question_core spec_inferred_type
    cases raw with
    | obj fs => exact absurd rfl (hraw fs)
    | bool b =>
      cases b <;>
        simp [alGet_alSet_self, utils_date_test, alContains, alGet_cons, alGet]
    | str s =>
      dsimp only
      by_cases hd : utils_date_test (pyStrip s)
      · simp [hd, alGet_alSet_self, alContains, alGet_cons, alGet]
      · by_cases hl : s.length > 80 <;>
          simp [hd, hl, alGet_alSet_self, alContains, alGet_cons, alGet]
    | _ => simp [alGet_alSet_self, alContains, alGet_cons, alGet]
  · unfold infer_question_from_value infer_question_core
    cases raw with
    | obj fs => exact absurd rfl (hraw fs)
    | bool b =>
      cases b <;>
        simp [alGet_alSet_self, normalize_yes_no, alContains, alGet_cons, alGet] <;>
        decide
    | str s =>
      dsimp only
      by_cases hd : utils_date_test (pyStrip s)
      · simp [hd, alGet_alSet_self, alContains, alGet_cons, alGet]
      · by_cases hl : s.length > 80 <;>
          simp [hd, hl, alGet_alSet_self, alContains, alGet_cons, alGet]
    | _ => simp [alGet_alSet_self, alContains, alGet_cons, alGet]
  · unfold normalize_yes_no
    simp only [List.mem_cons, List.not_mem_nil, or_false] at h1
    dsimp only
    rcases h1 with h | h | h | h | h <;> rw [h] <;> simp
  · unfold normalize_yes_no
    simp only [List.mem_cons, List.not_mem_nil, or_false] at h2
    dsimp only
    rcases h2 with h | h | h | h | h <;> rw [h] <;> simp

theorem C7_type_inference_witness :
    alGet (infer_question_from_value cexEnv (.str "Notes") (.str "short") 0).1 "type" =
      some (.str (spec_inferred_type (.str "short"))) ∧
    (infer_question_from_value cexEnv (.str "Notes") (.str "short") 0).2.1 =
      (match JValue.str "short" with
        | .bool b => .str (if b then "yes" else "no")
        | v => v) ∧
    normalize_yes_no (.str " TRUE ") = .str "yes" ∧
    normalize_yes_no (.str "N") = .str "no" ∧
    normalize_yes_no (.int 1) = .str "yes" ∧
    normalize_yes_no (.int 0) = .str "no" :=
  C7_type_inference cexEnv (.str "Notes") (.str "short") 0 " TRUE " "N"
    (fun fs h => by cases h) (by decide) (by decide)

/-- C7 counterexample: the cited `utils.infer_question_from_value`
assigns type `date` to the string `"abcd-efghi"`, which does not match
the claimed `YYYY-MM-DD` pattern and is not longer than 80 characters —
the claim as stated requires `short_text` here. -/
theorem C7_counterexample :
    alGet (infer_question_from_value cexEnv (.str "Deadline") (.str "abcd-efghi") 0).1
      "type" = some (.str "date") ∧
    matches_YYYY_MM_DD "abcd-efghi" = false ∧
    ¬ ("abcd-efghi".length > 80) ∧
    "date" ≠ "short_text" :=
  ⟨rfl, by decide, by decide, by decide⟩

/-- C2 counterexample: ingesting `\x7b"New label": "v"\x7d` against a form
with an unanswered required question synthesizes the custom question
(committed by `add_project_custom_question`) and *then* fails the
completeness check: the route returns the 400 error, no record is
stored, yet the custom-question block has observably grown from 0 to 1
questions — the side effect is visible although ingestion failed. -/
theorem C2_counterexample :
    (create_record_route cexEnv [cex_req_set] cex_proj [("New label", .str "v")]
        cex_state0 0).map
      (fun r => (block_question_count r.1.custom_questions, r.1.records.length, r.2.2)) =
      some (1, 0, Except.error (RouteErr.missingRequired
        "Missing required answers: Req?")) ∧
    block_question_count cex_state0.custom_questions = 0 :=
  ⟨rfl, rfl⟩

/-- C2 (amended): ingestion leaves the per-project state (custom-question
block *and* records) unchanged on failure **provided no custom question
was synthesized** — in particular whenever every payload key is already
in the merged form's lookup.  When synthesis does occur before a
completeness failure, the synthesized questions remain committed in the
block (see the counterexample), because each
`add_project_custom_question` commits its own transaction and the
completeness check runs afterwards. -/
theorem C2_failure_without_synthesis_preserves_state (env : Env) (setsData : List JValue)
    (proj : ProjCtx) (payload : Dict) (s : St) (c : Nat) (s' : St) (c' : Nat)
    (err : RouteErr) (form : JValue) (c1 : Nat) (ql : Dict)
    (hform : merged_project_form env setsData proj.name s.custom_questions c = some (form, c1))
    (hql : question_lookup_from_form form = some ql)
    (hknown : ∀ k ∈ payload.map Prod.fst, alContains ql k = true)
    (h : create_record_route env setsData proj payload s c = some (s', c', .error err)) :
    s' = s := by
  unfold create_record_route at h
  rw [hform] at h
  simp only [Option.bind_eq_bind, Option.some_bind] at h
  rw [hql] at h
  simp only [Option.some_bind] at h
  rw [autofill_answers_noop _ _ _ (question_lookup_entries _ _ hql)] at h
  have hunk : (payload.map Prod.fst).filter (fun k => ¬ alContains ql k) = [] := by
    rw [List.filter_eq_nil_iff]
    intro k hk
    simp [hknown k hk]
  rw [hunk] at h
  unfold resolve_unknown_keys at h
  simp only [Option.some_bind] at h
  cases hm : missing_required payload ql with
  | none => rw [hm] at h; simp at h
  | some missing =>
    rw [hm] at h
    simp only [Option.some_bind] at h
    by_cases hempty : missing.isEmpty
    · rw [if_pos hempty] at h
      simp at h
    · rw [if_neg hempty] at h
      simp only [Option.bind_eq_bind, Option.bind_eq_some, Option.some_inj] at h
      obtain ⟨joined, hj, h⟩ := h
      rw [Option.pure_def, Option.some_inj] at h
      have h1 := congrArg Prod.fst h
      dsimp at h1
      rw [← h1]

theorem C2_failure_without_synthesis_preserves_state_witness :
    create_record_route cexEnv [cex_req_set] cex_proj [] cex_state0 0 =
      some (cex_state0, 0, .error (.missingRequired "Missing required answers: Req?")) ∧
    cex_state0 = cex_state0 :=
  ⟨rfl, C2_failure_without_synthesis_preserves_state cexEnv [cex_req_set] cex_proj []
    cex_state0 0 cex_state0 0 (.missingRequired "Missing required answers: Req?") _ _ _
    rfl rfl (by simp) rfl⟩

/-! ### Completeness-check lemmas -/

/-- On a lookup whose `required` fields are booleans, `None` or absent,
the completeness scan computes exactly the spec-side violating texts. -/
theorem missing_required_eq_spec (answers ql : Dict)
    (hwf : lookup_required_wf ql = true) :
    missing_required answers ql = some (spec_violation_texts ql answers) := by
  induction ql with
  | nil => rfl
  | cons p rest ih =>
    rcases p with ⟨k, v⟩
    rw [lookup_required_wf, List.all_cons, Bool.and_eq_true] at hwf
    obtain ⟨hv, hrest⟩ := hwf
    have hspec := ih hrest
    cases v with
    | obj qinfo =>
      unfold missing_required
      rw [hspec]
      simp only [dictConv, Option.some_bind]
      dsimp only at hv
      cases hr : alGet qinfo "required" with
      | none =>
        simp [spec_violation_texts, entry_violates, hr, truthy, alGetD]
      | some rv =>
        rw [hr] at hv
        cases rv with
        | null => simp [spec_violation_texts, entry_violates, hr, truthy, alGetD]
        | bool b =>
          cases b with
          | false => simp [spec_violation_texts, entry_violates, hr, truthy, alGetD]
          | true =>
            cases ha : alGet answers k with
            | none =>
              simp [spec_violation_texts, entry_violates, answer_missing_or_empty,
                hr, ha, truthy, alGetD, alContains]
            | some av =>
              cases av with
              | str s =>
                by_cases hs : s = ""
                · subst hs
                  simp [spec_violation_texts, entry_violates, answer_missing_or_empty,
                    hr, ha, truthy, alGetD, alContains]
                · simp [spec_violation_texts, entry_violates, answer_missing_or_empty,
                    hr, ha, truthy, alGetD, alContains, hs]
              | null =>
                simp [spec_violation_texts, entry_violates, answer_missing_or_empty,
                  hr, ha, truthy, alGetD, alContains]
              | bool b2 =>
                simp [spec_violation_texts, entry_violates, answer_missing_or_empty,
                  hr, ha, truthy, alGetD, alContains]
              | int n =>
                simp [spec_violation_texts, entry_violates, answer_missing_or_empty,
                  hr, ha, truthy, alGetD, alContains]
              | float qq =>
                simp [spec_violation_texts, entry_violates, answer_missing_or_empty,
                  hr, ha, truthy, alGetD, alContains]
              | list xs =>
                simp [spec_violation_texts, entry_violates, answer_missing_or_empty,
                  hr, ha, truthy, alGetD, alContains]
              | obj fs2 =>
                simp [spec_violation_texts, entry_violates, answer_missing_or_empty,
                  hr, ha, truthy, alGetD, alContains]
        | _ => simp at hv
    | _ => simp at hv

/-- Extracting the contents of a list of string values succeeds. -/
theorem mapM_texts_of_strings (texts : List JValue)
    (h : ∀ t ∈ texts, ∃ s, t = .str s) :
    texts.mapM (fun t => match t with | JValue.str s => some s | _ => none) =
      some (texts.map pyStr) := by
  induction texts with
  | nil => rfl
  | cons t rest ih =>
    obtain ⟨s, hs⟩ := h t (List.mem_cons_self _ _)
    subst hs
    rw [List.mapM_cons, ih (fun t' ht' => h t' (List.mem_cons_of_mem _ ht'))]
    simp [pyStr]

/-- Joining a list of string values succeeds and equals the plain join of
their contents. -/
theorem join_texts_of_strings (texts : List JValue)
    (h : ∀ t ∈ texts, ∃ s, t = .str s) :
    join_texts texts = some (pyJoin ", " (texts.map pyStr)) := by
  unfold join_texts
  rw [mapM_texts_of_strings texts h]
  rfl

/-- Every violating text of a texts-wf lookup is a string value. -/
theorem spec_violation_texts_strings (ql answers : Dict)
    (hwf : lookup_texts_wf ql = true) :
    ∀ t ∈ spec_violation_texts ql answers, ∃ s, t = .str s := by
  intro t ht
  unfold spec_violation_texts at ht
  rw [List.mem_map] at ht
  obtain ⟨p, hp, hval⟩ := ht
  have hpql := List.mem_of_mem_filter hp
  rw [lookup_texts_wf, List.all_eq_true] at hwf
  have := hwf p hpql
  cases p2 : p.2 with
  | obj qinfo =>
    rw [p2] at this hval
    dsimp only at this hval
    cases htx : alGet qinfo "text" with
    | none => rw [htx] at this; simp at this
    | some tv =>
      rw [htx] at this
      cases tv with
      | str s =>
        refine ⟨s, ?_⟩
        rw [← hval]
        unfold alGetD
        rw [htx]
        rfl
      | _ => simp at this
  | _ => rw [p2] at this; simp at this

/-- C8: after unknown-key resolution succeeds with final state `st`, the
record route fails with the `Missing required answers` error **iff** some
question in the (possibly extended) lookup with `required = true` has no
entry, an empty-string entry or a null entry in the answer map; on
failure the error message joins the violating questions' texts truncated
to the first 10, and no record is created.  (`required`/`text`
well-formedness of the lookup lets Python truthiness coincide with
`required = true` and the join succeed.) -/
theorem C8_completeness_check (env : Env) (setsData : List JValue) (proj : ProjCtx)
    (payload : Dict) (s : St) (c : Nat) (form : JValue) (c1 : Nat) (ql : Dict)
    (st : ResolveState) (s' : St) (c' : Nat) (res : Except RouteErr Dict)
    (hform : merged_project_form env setsData proj.name s.custom_questions c = some (form, c1))
    (hql : question_lookup_from_form form = some ql)
    (hres : resolve_unknown_keys env setsData proj.name
        ((payload.map Prod.fst).filter (fun k => ¬ alContains ql k))
        { answers := payload, qlookup := ql, labelMap := extend_label_map ql [],
          custom := s.custom_questions, c := c1 } = some (.ok st))
    (hreqwf : lookup_required_wf st.qlookup = true)
    (htxtwf : lookup_texts_wf st.qlookup = true)
    (hroute : create_record_route env setsData proj payload s c = some (s', c', res)) :
    ((∃ msg, res = .error (.missingRequired msg)) ↔
      spec_violation_texts st.qlookup st.answers ≠ []) ∧
    (∀ msg, res = .error (.missingRequired msg) →
      msg = "Missing required answers: " ++
        pyJoin ", " (((spec_violation_texts st.qlookup st.answers).take 10).map pyStr) ∧
      s'.records = s.records) := by
  unfold create_record_route at hroute
  rw [hform] at hroute
  simp only [Option.bind_eq_bind, Option.some_bind] at hroute
  rw [hql] at hroute
  simp only [Option.some_bind] at hroute
  rw [autofill_answers_noop _ _ _ (question_lookup_entries _ _ hql)] at hroute
  rw [hres] at hroute
  simp only [Option.some_bind] at hroute
  rw [missing_required_eq_spec _ _ hreqwf] at hroute
  simp only [Option.some_bind] at hroute
  by_cases hempty : (spec_violation_texts st.qlookup st.answers).isEmpty
  · rw [if_pos hempty] at hroute
    rw [Option.pure_def, Option.some_inj] at hroute
    have hres2 : res = .ok st.answers := by
      have := congrArg (fun t => t.2.2) hroute
      exact this.symm
    constructor
    · constructor
      · rintro ⟨msg, hmsg⟩
        rw [hres2] at hmsg
        cases hmsg
      · intro hne
        exact absurd (List.isEmpty_iff.mp hempty) hne
    · intro msg hmsg
      rw [hres2] at hmsg
      cases hmsg
  · rw [if_neg hempty] at hroute
    have hstrings : ∀ t ∈ (spec_violation_texts st.qlookup st.answers).take 10,
        ∃ s0, t = .str s0 := fun t ht =>
      spec_violation_texts_strings _ _ htxtwf t (List.take_subset _ _ ht)
    rw [join_texts_of_strings _ hstrings] at hroute
    simp only [Option.some_bind, Option.pure_def, Option.some_inj] at hroute
    have hres2 : res = .error (.missingRequired ("Missing required answers: " ++
        pyJoin ", " (((spec_violation_texts st.qlookup st.answers).take 10).map pyStr))) := by
      have := congrArg (fun t => t.2.2) hroute
      exact this.symm
    have hrecords : s'.records = s.records := by
      have := congrArg (fun t => t.1.records) hroute
      exact this.symm
    constructor
    · constructor
      · intro _
        intro hnil
        rw [hnil] at hempty
        exact hempty rfl
      · intro _
        exact ⟨_, hres2⟩
    · intro msg hmsg
      rw [hres2] at hmsg
      cases hmsg
      exact ⟨rfl, hrecords⟩

theorem C8_completeness_check_witness :
    ((∃ msg, (Except.error (RouteErr.missingRequired "Missing required answers: Req?") :
        Except RouteErr Dict) = Except.error (RouteErr.missingRequired msg)) ↔
      spec_violation_texts cex_resolve_st.qlookup cex_resolve_st.answers ≠ []) ∧
    (∀ msg, (Except.error (RouteErr.missingRequired "Missing required answers: Req?") :
        Except RouteErr Dict) = Except.error (RouteErr.missingRequired msg) →
      msg = "Missing required answers: " ++
        pyJoin ", " (((spec_violation_texts cex_resolve_st.qlookup
          cex_resolve_st.answers).take 10).map pyStr) ∧
      cex_state0.records = cex_state0.records) :=
  C8_completeness_check cexEnv [cex_req_set] cex_proj [] cex_state0 0 _ 0
    cex_req_lookup cex_resolve_st cex_state0 0 _ rfl rfl rfl rfl rfl rfl

/-! ### ID-stability lemmas -/

/-- The question loop keeps existing ids and generates string ids for the
missing ones. -/
theorem ensure_questions_list_ids (env : Env) (qs : List JValue) (c : Nat)
    (h : ∀ q ∈ qs, ∃ qd, q = .obj qd) :
    ∃ out c', ensure_questions_list env qs c = some (out, c') ∧
      List.Forall₂ id_preserved qs out := by
  induction qs generalizing c with
  | nil => exact ⟨[], c, rfl, List.Forall₂.nil⟩
  | cons q rest ih =>
    obtain ⟨qd, hqd⟩ := h q (List.mem_cons_self _ _)
    subst hqd
    obtain ⟨out, c', hout, hf⟩ := ih (c + 1) (fun q' hq' => h q' (List.mem_cons_of_mem _ hq'))
    refine ⟨.obj (alSetdefault (normalize_dropdown_options env qd) "id"
      (.str (env.gen c))) :: out, c', ?_, ?_⟩
    · unfold ensure_questions_list
      simp only [dictConv, Option.some_bind, Option.bind_eq_bind]
      rw [hout]
      rfl
    · refine List.Forall₂.cons ⟨?_, ?_⟩ hf
      · intro v hv
        unfold question_id at hv ⊢
        dsimp only at hv ⊢
        have hn : alGet (normalize_dropdown_options env qd) "id" = some v := by
          rw [alGet_normalize_ne _ _ _ (by decide) (by decide)]
          exact hv
        rw [alSetdefault_of_contains _ _ _ (by rw [alContains_iff, hn]; rfl)]
        exact hn
      · intro hnone
        unfold question_id at hnone ⊢
        dsimp only at hnone ⊢
        have hnid : alGet (normalize_dropdown_options env qd) "id" = none := by
          rw [alGet_normalize_ne _ _ _ (by decide) (by decide)]
          exact hnone
        rw [alGet_alSetdefault_same, hnid]
        exact ⟨env.gen c, rfl⟩

/-- The section loop preserves ids question-by-question inside each
section. -/
theorem ensure_sections_list_ids (env : Env) (secs : List JValue) (c : Nat)
    (h : ∀ sec ∈ secs, ∃ sf qs, sec = .obj sf ∧ alGet sf "questions" = some (.list qs) ∧
      ∀ q ∈ qs, ∃ qd, q = .obj qd) :
    ∃ out c', ensure_sections_list env secs c = some (out, c') ∧
      List.Forall₂ (fun sec sec' =>
        List.Forall₂ id_preserved (section_questions sec) (section_questions sec'))
        secs out := by
  induction secs generalizing c with
  | nil => exact ⟨[], c, rfl, List.Forall₂.nil⟩
  | cons sec rest ih =>
    obtain ⟨sf, qs, hsec, hqs, hobj⟩ := h sec (List.mem_cons_self _ _)
    subst hsec
    obtain ⟨qout, c1, hqout, hqf⟩ := ensure_questions_list_ids env qs c hobj
    obtain ⟨out, c', hout, hf⟩ := ih c1 (fun s' hs' => h s' (List.mem_cons_of_mem _ hs'))
    refine ⟨.obj (alSet sf "questions" (.list qout)) :: out, c', ?_, ?_⟩
    · unfold ensure_sections_list
      simp only [dictConv, Option.some_bind, Option.bind_eq_bind]
      have : alGetD sf "questions" (.list []) = .list qs := by
        unfold alGetD
        rw [hqs]
        rfl
      rw [this]
      simp only [pyIter, Option.some_bind]
      rw [hqout]
      simp only [Option.some_bind]
      rw [hout]
      rfl
    · refine List.Forall₂.cons ?_ hf
      unfold section_questions
      dsimp only
      rw [hqs, alGet_alSet_self]
      exact hqf

/-- `Forall2` on the flattened question lists, from the per-section
relation. -/
theorem forall2_flatMap {α : Type} (R : α → α → Prop) (f : α → List α) (l l' : List α)
    (h : List.Forall₂ (fun a b => List.Forall₂ R (f a) (f b)) l l') :
    List.Forall₂ R (l.flatMap f) (l'.flatMap f) := by
  induction h with
  | nil => simp [List.flatMap]
  | cons hab _ ih =>
    simp only [List.flatMap_cons]
    exact List.rel_append hab ih

/-- C5: canonicalizing an already-canonical document never changes the id
of any question that already carries one; only questions lacking an id
receive a freshly generated (string) id.  Stated as a pointwise relation
between the input's questions and the output's questions. -/
theorem C5_id_stability (env : Env) (x : JValue) (fb : String) (c : Nat) (y : JValue)
    (c' : Nat)
    (hshape : canonical_doc_shape x = true)
    (h : to_canonical_question_set env x fb c = some (y, c')) :
    List.Forall₂ id_preserved (doc_questions x) (doc_questions y) := by
  unfold canonical_doc_shape at hshape
  cases x with
  | obj fs =>
    dsimp only at hshape
    rw [Bool.and_eq_true] at hshape
    obtain ⟨htitle, hsections⟩ := hshape
    cases hsec : alGet fs "sections" with
    | none => rw [hsec] at hsections; simp at hsections
    | some sv =>
      rw [hsec] at hsections
      cases sv with
      | list secs =>
        have hsecsh : ∀ sec ∈ secs, ∃ sf qs, sec = .obj sf ∧
            alGet sf "questions" = some (.list qs) ∧ ∀ q ∈ qs, ∃ qd, q = .obj qd := by
          rw [List.all_eq_true] at hsections
          intro sec hmem
          have hp := hsections sec hmem
          cases sec with
          | obj sf =>
            dsimp only at hp
            cases hq : alGet sf "questions" with
            | none => rw [hq] at hp; simp at hp
            | some qv =>
              rw [hq] at hp
              cases qv with
              | list qs =>
                refine ⟨sf, qs, rfl, hq, ?_⟩
                rw [List.all_eq_true] at hp
                intro q hqmem
                have := hp q hqmem
                cases q with
                | obj qd => exact ⟨qd, rfl⟩
                | _ => simp at this
              | _ => simp at hp
          | _ => simp at hp
        -- the canonical branch is taken
        unfold to_canonical_question_set at h
        dsimp only at h
        rw [if_pos (by
          constructor
          · rw [alContains_iff, hsec]; rfl
          · exact htitle)] at h
        unfold ensure_question_ids at h
        simp only [dictConv, Option.some_bind, Option.bind_eq_bind] at h
        have hgetd : alGetD fs "sections" (.list []) = .list secs := by
          unfold alGetD
          rw [hsec]
          rfl
        rw [hgetd] at h
        simp only [pyIter, Option.some_bind] at h
        obtain ⟨out, c2, hens, hf⟩ := ensure_sections_list_ids env secs c hsecsh
        rw [hens] at h
        simp only [Option.some_bind, Option.pure_def, Option.some_inj] at h
        have hy : y = .obj (alSetdefault (alSet fs "sections" (.list out)) "title"
            (pyOr (alGetD (alSet fs "sections" (.list out)) "name" .null) (.str "Untitled"))) := by
          exact (congrArg Prod.fst h).symm
        have hdq_x : doc_questions (.obj fs) = secs.flatMap section_questions := by
          unfold doc_questions doc_sections
          dsimp only
          rw [hsec]
        have hdq_y : doc_questions y = out.flatMap section_questions := by
          rw [hy]
          unfold doc_questions doc_sections
          dsimp only
          rw [alGet_alSetdefault_ne _ _ _ _ (by decide), alGet_alSet_self]
        rw [hdq_x, hdq_y]
        exact forall2_flatMap _ _ _ _ hf
      | _ => simp at hsections
  | _ => simp at hshape

theorem C5_id_stability_witness :
    List.Forall₂ id_preserved
      (doc_questions (.obj [("title", .str "T"), ("sections", .list [
        .obj [("title", .str "S"), ("questions", .list [
          .obj [("id", .str "q1"), ("text", .str "A"), ("type", .str "short_text"),
                ("required", .bool false)],
          .obj [("text", .str "B"), ("type", .str "short_text"),
                ("required", .bool false)]])]])]))
      (doc_questions (.obj [("title", .str "T"), ("sections", .list [
        .obj [("title", .str "S"), ("questions", .list [
          .obj [("id", .str "q1"), ("text", .str "A"), ("type", .str "short_text"),
                ("required", .bool false)],
          .obj [("text", .str "B"), ("type", .str "short_text"),
                ("required", .bool false), ("id", .str "uuid-1")]])]])])) :=
  C5_id_stability cexEnv
    (.obj [("title", .str "T"), ("sections", .list [
      .obj [("title", .str "S"), ("questions", .list [
        .obj [("id", .str "q1"), ("text", .str "A"), ("type", .str "short_text"),
              ("required", .bool false)],
        .obj [("text", .str "B"), ("type", .str "short_text"),
              ("required", .bool false)]])]])])
    "fb" 0 _ 2 rfl rfl

/-! ### Merge-ordering lemmas -/

/-- Renaming a list of string-titled section dicts produces exactly the
spec-side retitled sections, in order. -/
theorem merge_rename_sections_spec (t : String) (secs : List JValue)
    (h : ∀ sec ∈ secs, (match sec with
      | JValue.obj sf => match alGet sf "title" with
        | some (.str _) => true
        | _ => false
      | _ => false) = true) :
    merge_rename_sections t secs = some (secs.map (fun sec =>
      JValue.obj [("title", .str (t ++ " — " ++ sec_title_of sec)),
                  ("questions", sec_questions_value sec)])) := by
  induction secs with
  | nil => rfl
  | cons sec rest ih =>
    have hs := h sec (List.mem_cons_self _ _)
    cases sec with
    | obj sf =>
      dsimp only at hs
      cases ht : alGet sf "title" with
      | none => rw [ht] at hs; simp at hs
      | some tv =>
        rw [ht] at hs
        cases tv with
        | str ts =>
          unfold merge_rename_sections
          simp only [dictConv, Option.some_bind, Option.bind_eq_bind]
          rw [ih (fun s' hs' => h s' (List.mem_cons_of_mem _ hs'))]
          simp only [Option.some_bind, Option.pure_def, Option.some_inj, List.map_cons]
          rw [ht]
          unfold sec_title_of sec_questions_value
          dsimp only
          rw [ht]
          rfl
        | _ => simp at hs
    | _ => simp at hs

/-- The assigned-set loop produces the concatenation of each set's
retitled sections, independent of the enumeration index (titles are
present, so the index-based default is never used). -/
theorem merge_sets_loop_spec (setsData : List JValue) (idx : Nat)
    (h : ∀ sd ∈ setsData, merge_input_shape sd = true) :
    merge_sets_loop idx setsData = some (setsData.flatMap (fun v =>
      (doc_sections v).map (fun sec =>
        JValue.obj [("title", .str (version_title v ++ " — " ++ sec_title_of sec)),
                    ("questions", sec_questions_value sec)]))) := by
  induction setsData generalizing idx with
  | nil => rfl
  | cons sd rest ih =>
    have hs := h sd (List.mem_cons_self _ _)
    unfold merge_input_shape at hs
    cases sd with
    | obj fsd =>
      dsimp only at hs
      rw [Bool.and_eq_true] at hs
      obtain ⟨ht, hsecs⟩ := hs
      cases htitle : alGet fsd "title" with
      | none => rw [htitle] at ht; simp at ht
      | some tv =>
        rw [htitle] at ht
        cases tv with
        | str ts =>
          cases hsec : alGet fsd "sections" with
          | none => rw [hsec] at hsecs; simp at hsecs
          | some sv =>
            rw [hsec] at hsecs
            cases sv with
            | list secs =>
              unfold merge_sets_loop
              simp only [dictConv, Option.some_bind, Option.bind_eq_bind]
              rw [htitle]
              have hgetd : alGetD fsd "sections" (.list []) = .list secs := by
                unfold alGetD
                rw [hsec]
                rfl
              rw [hgetd]
              simp only [pyIter, Option.some_bind]
              rw [merge_rename_sections_spec (pyStr (.str ts)) secs (by
                rw [List.all_eq_true] at hsecs
                exact hsecs)]
              simp only [Option.some_bind]
              rw [ih (idx + 1) (fun s' hs' => h s' (List.mem_cons_of_mem _ hs'))]
              simp only [Option.some_bind, Option.pure_def, Option.some_inj,
                List.flatMap_cons]
              have hvt : version_title (.obj fsd) = ts := by
                unfold version_title
                dsimp only
                rw [htitle]
              have hds : doc_sections (.obj fsd) = secs := by
                unfold doc_sections
                dsimp only
                rw [hsec]
              rw [hvt, hds]
              rfl
            | _ => simp at hsecs
        | _ => simp at ht
    | _ => simp at hs

/-- C6: the merged form's sections are exactly each assigned version's
sections in position order retitled `"{version.title} — {section.title}"`
(preserving each version's internal section order), followed last by the
canonicalized custom block's sections retitled `"Custom — {section.title}"`;
the form's own title is the project name. -/
theorem C6_merge_ordering (env : Env) (setsData : List JValue) (projName : String)
    (custom : JValue) (c : Nat) (form : JValue) (c2 : Nat) (customC : JValue) (c1 : Nat)
    (hshape : ∀ sd ∈ setsData, merge_input_shape sd = true)
    (hcust : canonical_project_custom_questions env custom c = some (customC, c1))
    (hct : sections_titled customC = true)
    (h : merged_project_form env setsData projName custom c = some (form, c2)) :
    form = .obj [("title", .str projName),
      ("sections", .list (merge_spec_sections setsData customC))] := by
  obtain ⟨cfs, csecs, hcobj, hcsecs, hctitle⟩ := canonical_custom_shape _ _ _ _ _ hcust
  unfold merged_project_form at h
  rw [hcust] at h
  simp only [Option.bind_eq_bind, Option.some_bind] at h
  rw [merge_sets_loop_spec setsData 0 hshape] at h
  simp only [Option.some_bind] at h
  rw [hcobj] at h
  simp only [dictConv, Option.some_bind] at h
  have hgetd : alGetD cfs "sections" (.list []) = .list csecs := by
    unfold alGetD
    rw [hcsecs]
    rfl
  rw [hgetd] at h
  simp only [pyIter, Option.some_bind] at h
  have hds : doc_sections customC = csecs := by
    rw [hcobj]
    unfold doc_sections
    dsimp only
    rw [hcsecs]
  rw [sections_titled, hds, List.all_eq_true] at hct
  rw [merge_rename_sections_spec "Custom" csecs hct] at h
  simp only [Option.some_bind, Option.pure_def, Option.some_inj] at h
  have hform := congrArg Prod.fst h
  dsimp only at hform
  rw [← hform]
  unfold merge_spec_sections
  rw [hds]

theorem C6_merge_ordering_witness :
    (JValue.obj [("title", .str "P"), ("sections", .list [
      .obj [("title", .str "A — A1"), ("questions", .list [])],
      .obj [("title", .str "B — B1"), ("questions", .list [])],
      .obj [("title", .str "Custom — C1"), ("questions", .list [])]])]) =
    .obj [("title", .str "P"), ("sections", .list (merge_spec_sections
      [.obj [("title", .str "A"), ("sections", .list [
        .obj [("title", .str "A1"), ("questions", .list [])]])],
       .obj [("title", .str "B"), ("sections", .list [
        .obj [("title", .str "B1"), ("questions", .list [])]])]]
      (.obj [("title", .str "Custom"), ("sections", .list [
        .obj [("title", .str "C1"), ("questions", .list [])]])])))] :=
  C6_merge_ordering cexEnv
    [.obj [("title", .str "A"), ("sections", .list [
      .obj [("title", .str "A1"), ("questions", .list [])]])],
     .obj [("title", .str "B"), ("sections", .list [
      .obj [("title", .str "B1"), ("questions", .list [])]])]]
    "P"
    (.obj [("title", .str "Custom"), ("sections", .list [
      .obj [("title", .str "C1"), ("questions", .list [])]])])
    0 _ 0
    (.obj [("title", .str "Custom"), ("sections", .list [
      .obj [("title", .str "C1"), ("questions", .list [])]])])
    0 (by decide) rfl (by decide) rfl

/-! ### Canonicalization idempotence (claim C4) -/

theorem dropWhile_head_neg {p : Char → Bool} {l : List Char} (h : l.dropWhile p = l) :
    (List.rdropWhile p l).dropWhile p = List.rdropWhile p l := by
  cases hr : List.rdropWhile p l with
  | nil => rfl
  | cons a r' =>
    obtain ⟨t, ht⟩ := List.rdropWhile_prefix (p := p) (l := l)
    rw [hr] at ht
    rw [List.cons_append] at ht
    have hpa : p a = false := by
      rw [← ht] at h
      rw [List.dropWhile_cons] at h
      by_contra hcon
      rw [Bool.not_eq_false] at hcon
      rw [if_pos hcon] at h
      have hle : (List.dropWhile p (r' ++ t)).length ≤ (r' ++ t).length :=
        (List.dropWhile_suffix p).sublist.length_le
      rw [h] at hle
      simp at hle
    rw [List.dropWhile_cons, if_neg (by simp [hpa])]

/-- Python `str.strip()` is idempotent. -/
theorem pyStrip_idem (s : String) : pyStrip (pyStrip s) = pyStrip s := by
  have key : ∀ l : List Char,
      List.rdropWhile pyWhitespace
        ((List.rdropWhile pyWhitespace (l.dropWhile pyWhitespace)).dropWhile pyWhitespace)
      = List.rdropWhile pyWhitespace (l.dropWhile pyWhitespace) := by
    intro l
    rw [dropWhile_head_neg (List.dropWhile_idempotent _ _), List.rdropWhile_idempotent]
  exact congrArg String.mk (key s.toList)

/-- Every line produced by `_split_nonempty_lines` is already stripped
and non-empty. -/
theorem split_nonempty_lines_stripped (s : String) :
    ∀ l ∈ _split_nonempty_lines s, pyStrip l = l ∧ l ≠ "" := by
  intro l hl
  unfold _split_nonempty_lines at hl
  rw [List.mem_filter] at hl
  obtain ⟨hm, hne⟩ := hl
  rw [List.mem_map] at hm
  obtain ⟨l0, _, rfl⟩ := hm
  exact ⟨pyStrip_idem l0, by simpa using hne⟩

/-- Every element of the strip-and-filter branch of
`normalize_dropdown_options` is stripped and non-empty. -/
theorem strip_filter_elems (opts : List JValue) :
    ∀ l ∈ (opts.map (fun x => pyStrip (pyStr x))).filter (fun s => s ≠ ""),
      pyStrip l = l ∧ l ≠ "" := by
  intro l hl
  rw [List.mem_filter] at hl
  obtain ⟨hm, hne⟩ := hl
  rw [List.mem_map] at hm
  obtain ⟨x, _, rfl⟩ := hm
  exact ⟨pyStrip_idem _, by simpa using hne⟩

/-- Re-stripping a list of already-stripped non-empty strings is the
identity. -/
theorem restrip_options (ls : List String)
    (h : ∀ l ∈ ls, pyStrip l = l ∧ l ≠ "") :
    (((ls.map JValue.str).map (fun x => pyStrip (pyStr x))).filter
        (fun s => s ≠ "")).map JValue.str = ls.map JValue.str := by
  induction ls with
  | nil => rfl
  | cons a rest ih =>
    obtain ⟨ha1, ha2⟩ := h a (List.mem_cons_self _ _)
    have hrest := ih (fun l hl => h l (List.mem_cons_of_mem _ hl))
    simp only [List.map_cons, List.filter_cons]
    have e1 : pyStrip (pyStr (JValue.str a)) = a := ha1
    rw [e1, if_pos (decide_eq_true ha2), List.map_cons, hrest]

/-- Bridge from the Bool-valued all-short test to the heuristic's `if`
condition in `normalize_dropdown_options`. -/
theorem options_all_short_ne (opts : List JValue)
    (h : options_list_all_short opts = false) :
    ¬ (¬ opts.isEmpty ∧ opts.all (fun x => match x with
        | .str s => s.length ≤ 1
        | _ => false)) := by
  intro hc
  have ht : options_list_all_short opts = true := by
    unfold options_list_all_short
    rw [Bool.and_eq_true]
    exact ⟨decide_eq_true hc.1, hc.2⟩
  rw [h] at ht
  simp at ht

theorem options_all_short_false_of (opts : List JValue)
    (h : ¬ (¬ opts.isEmpty ∧ opts.all (fun x => match x with
        | .str s => s.length ≤ 1
        | _ => false))) :
    options_list_all_short opts = false := by
  cases hval : options_list_all_short opts
  · rfl
  · exfalso
    apply h
    unfold options_list_all_short at hval
    rw [Bool.and_eq_true] at hval
    exact ⟨of_decide_eq_true hval.1, hval.2⟩

/-- The else (strip-and-filter) branch of the options block, as an
equation. -/
theorem nof_else_eq (qd : Dict) (t : String) (opts : List JValue)
    (httype : alGet qd "type" = some (.str t))
    (hdk : t = "dropdown" ∨ t = "dropdown_mapped")
    (ho : alGet qd "options" = some (.list opts))
    (hshort : options_list_all_short opts = false) :
    normalize_options_field qd =
      alSet qd "options" (.list (((opts.map (fun x => pyStrip (pyStr x))).filter
        (fun s => s ≠ "")).map JValue.str)) := by
  have hniff : ¬ (¬ opts.isEmpty ∧ opts.all (fun x => match x with
      | .str s => s.length ≤ 1
      | _ => false)) := options_all_short_ne opts hshort
  simp only [normalize_options_field, httype]
  rw [if_pos (decide_eq_true hdk), ho]
  dsimp only
  rw [if_neg hniff]

/-- Case analysis of the options block on a dropdown-kind question: it
either leaves the dict alone (and then `options` is neither a string nor
a list) or it stores a list of stripped non-empty strings. -/
theorem nof_dropdown_cases (qd : Dict) (t : String)
    (httype : alGet qd "type" = some (.str t))
    (hdk : t = "dropdown" ∨ t = "dropdown_mapped") :
    (normalize_options_field qd = qd ∧
      (∀ s, ¬ alGet qd "options" = some (.str s)) ∧
      (∀ opts, ¬ alGet qd "options" = some (.list opts))) ∨
    ∃ ls : List String, (∀ l ∈ ls, pyStrip l = l ∧ l ≠ "") ∧
      normalize_options_field qd = alSet qd "options" (.list (ls.map JValue.str)) := by
  cases ho : alGet qd "options" with
  | none =>
    left
    refine ⟨by simp [normalize_options_field, httype, hdk, ho], ?_, ?_⟩ <;>
      · intro z hz
        simp at hz
  | some ov =>
    cases ov with
    | str s =>
      right
      refine ⟨_split_nonempty_lines s, split_nonempty_lines_stripped s, ?_⟩
      simp [normalize_options_field, httype, hdk, ho]
    | list opts =>
      right
      by_cases hsh : ¬ opts.isEmpty ∧ opts.all (fun x => match x with
          | .str s => s.length ≤ 1
          | _ => false)
      · refine ⟨_split_nonempty_lines (pyJoin "" (opts.map (fun x => match x with
          | .str s => s
          | _ => ""))), split_nonempty_lines_stripped _, ?_⟩
        simp only [normalize_options_field, httype]
        rw [if_pos (decide_eq_true hdk), ho]
        dsimp only
        rw [if_pos hsh]
      · exact ⟨(opts.map (fun x => pyStrip (pyStr x))).filter (fun s => s ≠ ""),
          strip_filter_elems opts,
          nof_else_eq qd t opts httype hdk ho (options_all_short_false_of opts hsh)⟩
    | null =>
      left
      refine ⟨by simp [normalize_options_field, httype, hdk, ho], ?_, ?_⟩ <;>
        · intro z hz
          simp at hz
    | bool b =>
      left
      refine ⟨by simp [normalize_options_field, httype, hdk, ho], ?_, ?_⟩ <;>
        · intro z hz
          simp at hz
    | int m =>
      left
      refine ⟨by simp [normalize_options_field, httype, hdk, ho], ?_, ?_⟩ <;>
        · intro z hz
          simp at hz
    | float r =>
      left
      refine ⟨by simp [normalize_options_field, httype, hdk, ho], ?_, ?_⟩ <;>
        · intro z hz
          simp at hz
    | obj fs2 =>
      left
      refine ⟨by simp [normalize_options_field, httype, hdk, ho], ?_, ?_⟩ <;>
        · intro z hz
          simp at hz

/-- Extracting the safety fact for a stored options list. -/
theorem question_options_safe_list (qd : Dict) (t : String) (opts : List JValue)
    (ht : alGet qd "type" = some (.str t))
    (hdk : t = "dropdown" ∨ t = "dropdown_mapped")
    (ho : alGet qd "options" = some (.list opts))
    (hs : question_options_safe qd = true) :
    options_list_all_short opts = false := by
  unfold question_options_safe at hs
  rw [ht] at hs
  dsimp only at hs
  rw [if_pos hdk, ho] at hs
  dsimp only at hs
  cases hval : options_list_all_short opts
  · rfl
  · rw [hval] at hs
    simp at hs

/-- A second options pass is the identity on a normalized,
idempotence-safe question. -/
theorem normalize_options_field_fixed (qd : Dict)
    (hok : options_ok qd) (hsafe : question_options_safe qd = true) :
    normalize_options_field qd = qd := by
  cases ht : alGet qd "type" with
  | none => simp [normalize_options_field, ht]
  | some tv =>
    cases tv with
    | str t =>
      by_cases hdk : t = "dropdown" ∨ t = "dropdown_mapped"
      · obtain ⟨hnostr, hlist⟩ := hok t ht hdk
        cases ho : alGet qd "options" with
        | none => simp [normalize_options_field, ht, hdk, ho]
        | some ov =>
          cases ov with
          | str s => exact absurd ho (hnostr s)
          | list opts =>
            obtain ⟨ls, rfl, hls⟩ := hlist opts ho
            have hshort := question_options_safe_list qd t _ ht hdk ho hsafe
            rw [nof_else_eq qd t _ ht hdk ho hshort, restrip_options ls hls]
            exact alSet_self _ _ _ ho
          | null => simp [normalize_options_field, ht, hdk, ho]
          | bool b => simp [normalize_options_field, ht, hdk, ho]
          | int m => simp [normalize_options_field, ht, hdk, ho]
          | float r => simp [normalize_options_field, ht, hdk, ho]
          | obj fs2 => simp [normalize_options_field, ht, hdk, ho]
      · simp [normalize_options_field, ht, hdk]
    | null => simp [normalize_options_field, ht]
    | bool b => simp [normalize_options_field, ht]
    | int m => simp [normalize_options_field, ht]
    | float r => simp [normalize_options_field, ht]
    | list xs => simp [normalize_options_field, ht]
    | obj fs2 => simp [normalize_options_field, ht]

/-- A second value-map pass is the identity on a normalized question. -/
theorem normalize_value_map_field_fixed (env2 : Env) (qd : Dict)
    (hvm : value_map_ok qd) :
    normalize_value_map_field env2 qd = qd := by
  cases ht : alGet qd "type" with
  | none => simp [normalize_value_map_field, ht]
  | some tv =>
    cases tv with
    | str t =>
      by_cases hm : t = "dropdown_mapped"
      · subst hm
        obtain ⟨fs, hfs⟩ := hvm ht
        have heq : normalize_value_map_field env2 qd = alSet qd "value_map" (.obj fs) := by
          simp [normalize_value_map_field, ht, hfs]
        rw [heq]
        exact alSet_self _ _ _ hfs
      · simp [normalize_value_map_field, ht, hm]
    | null => simp [normalize_value_map_field, ht]
    | bool b => simp [normalize_value_map_field, ht]
    | int m => simp [normalize_value_map_field, ht]
    | float r => simp [normalize_value_map_field, ht]
    | list xs => simp [normalize_value_map_field, ht]
    | obj fs2 => simp [normalize_value_map_field, ht]

/-- A second full normalization pass is the identity on a normalized,
idempotence-safe question. -/
theorem normalize_idem_of_ok (env2 : Env) (qd : Dict)
    (hok : options_ok qd) (hvm : value_map_ok qd)
    (hsafe : question_options_safe qd = true) :
    normalize_dropdown_options env2 qd = qd := by
  unfold normalize_dropdown_options
  rw [normalize_options_field_fixed qd hok hsafe,
      normalize_value_map_field_fixed env2 qd hvm]

/-- The options block establishes `options_ok`. -/
theorem normalize_options_field_ok (qd : Dict) :
    options_ok (normalize_options_field qd) := by
  intro t ht hdk
  have httype : alGet qd "type" = some (.str t) := by
    rw [← alGet_normalize_options_ne qd "type" (by decide)]
    exact ht
  rcases nof_dropdown_cases qd t httype hdk with ⟨heq, hnostr, hnolist⟩ | ⟨ls, hls, heq⟩
  · rw [heq]
    exact ⟨hnostr, fun opts hoo => absurd hoo (hnolist opts)⟩
  · rw [heq]
    constructor
    · intro s hs
      rw [alGet_alSet_self] at hs
      simp at hs
    · intro opts hoo
      rw [alGet_alSet_self] at hoo
      refine ⟨ls, ?_, hls⟩
      injection hoo with h1
      injection h1 with h2
      exact h2.symm

/-- The value-map block establishes `value_map_ok`. -/
theorem normalize_value_map_field_ok (env : Env) (qd : Dict) :
    value_map_ok (normalize_value_map_field env qd) := by
  intro ht
  have httype : alGet qd "type" = some (.str "dropdown_mapped") := by
    rw [← alGet_normalize_value_map_ne env qd "type" (by decide)]
    exact ht
  have key : ∃ X, normalize_value_map_field env qd = alSet qd "value_map" (.obj X) := by
    cases hv : alGet qd "value_map" with
    | none => exact ⟨[], by simp [normalize_value_map_field, httype, hv]⟩
    | some vv =>
      cases vv with
      | null => exact ⟨[], by simp [normalize_value_map_field, httype, hv]⟩
      | obj fs => exact ⟨fs, by simp [normalize_value_map_field, httype, hv]⟩
      | str s =>
        cases hj : env.jloads s with
        | none => exact ⟨[], by simp [normalize_value_map_field, httype, hv, hj]⟩
        | some pv =>
          cases pv with
          | obj pfs => exact ⟨pfs, by simp [normalize_value_map_field, httype, hv, hj]⟩
          | null => exact ⟨[], by simp [normalize_value_map_field, httype, hv, hj]⟩
          | bool b => exact ⟨[], by simp [normalize_value_map_field, httype, hv, hj]⟩
          | int m => exact ⟨[], by simp [normalize_value_map_field, httype, hv, hj]⟩
          | float r => exact ⟨[], by simp [normalize_value_map_field, httype, hv, hj]⟩
          | str s2 => exact ⟨[], by simp [normalize_value_map_field, httype, hv, hj]⟩
          | list xs => exact ⟨[], by simp [normalize_value_map_field, httype, hv, hj]⟩
      | bool b => exact ⟨[], by simp [normalize_value_map_field, httype, hv]⟩
      | int m => exact ⟨[], by simp [normalize_value_map_field, httype, hv]⟩
      | float r => exact ⟨[], by simp [normalize_value_map_field, httype, hv]⟩
      | list xs => exact ⟨[], by simp [normalize_value_map_field, httype, hv]⟩
  obtain ⟨X, hX⟩ := key
  rw [hX]
  exact ⟨X, alGet_alSet_self _ _ _⟩

/-- The value-map block preserves `options_ok` (it touches neither
`type` nor `options`). -/
theorem options_ok_value_map (env : Env) (qd : Dict) (h : options_ok qd) :
    options_ok (normalize_value_map_field env qd) := by
  intro t ht hdk
  rw [alGet_normalize_value_map_ne env qd "type" (by decide)] at ht
  rw [alGet_normalize_value_map_ne env qd "options" (by decide)]
  exact h t ht hdk

theorem options_ok_setdefault_id (qd : Dict) (v : JValue) (h : options_ok qd) :
    options_ok (alSetdefault qd "id" v) := by
  intro t ht hdk
  rw [alGet_alSetdefault_ne qd "id" "type" v (by decide)] at ht
  rw [alGet_alSetdefault_ne qd "id" "options" v (by decide)]
  exact h t ht hdk

theorem value_map_ok_setdefault_id (qd : Dict) (v : JValue) (h : value_map_ok qd) :
    value_map_ok (alSetdefault qd "id" v) := by
  intro ht
  rw [alGet_alSetdefault_ne qd "id" "type" v (by decide)] at ht
  rw [alGet_alSetdefault_ne qd "id" "value_map" v (by decide)]
  exact h ht

/-- The per-question output of `ensure_question_ids` carries an id and
both normalization invariants. -/
theorem ensure_question_out_props (env : Env) (qd0 : Dict) (fresh : String) :
    alContains (alSetdefault (normalize_dropdown_options env qd0) "id" (.str fresh)) "id"
      = true ∧
    options_ok (alSetdefault (normalize_dropdown_options env qd0) "id" (.str fresh)) ∧
    value_map_ok (alSetdefault (normalize_dropdown_options env qd0) "id" (.str fresh)) := by
  refine ⟨?_, ?_, ?_⟩
  · rw [alContains_iff, alGet_alSetdefault_same]
    rfl
  · exact options_ok_setdefault_id _ _
      (options_ok_value_map env _ (normalize_options_field_ok qd0))
  · exact value_map_ok_setdefault_id _ _
      (normalize_value_map_field_ok env (normalize_options_field qd0))

/-- Every question produced by the question loop is a normalized dict
with an id. -/
theorem ensure_questions_out_ok (env : Env) (qs : List JValue) (c : Nat)
    (out : List JValue) (c' : Nat)
    (h : ensure_questions_list env qs c = some (out, c')) :
    ∀ q ∈ out, ∃ qd, q = .obj qd ∧ alContains qd "id" = true ∧
      options_ok qd ∧ value_map_ok qd := by
  induction qs generalizing c out c' with
  | nil =>
    unfold ensure_questions_list at h
    rw [Option.some_inj] at h
    injection h with h1 h2
    subst h1
    intro q hq
    simp at hq
  | cons q0 rest ih =>
    cases q0 with
    | obj qd0 =>
      unfold ensure_questions_list at h
      simp only [dictConv, Option.some_bind, Option.bind_eq_bind, Option.bind_eq_some,
        Option.pure_def, Option.some_inj] at h
      obtain ⟨⟨outr, c1⟩, hrec, heq⟩ := h
      dsimp only at heq
      injection heq with h1 h2
      subst h1
      intro q hq
      rcases List.mem_cons.mp hq with rfl | hmem
      · refine ⟨_, rfl, ?_, ?_, ?_⟩
        · exact (ensure_question_out_props env qd0 (env.gen c)).1
        · exact (ensure_question_out_props env qd0 (env.gen c)).2.1
        · exact (ensure_question_out_props env qd0 (env.gen c)).2.2
      · exact ih (c + 1) outr c1 hrec q hmem
    | null => unfold ensure_questions_list at h; simp [dictConv] at h
    | bool b => unfold ensure_questions_list at h; simp [dictConv] at h
    | int m => unfold ensure_questions_list at h; simp [dictConv] at h
    | float r => unfold ensure_questions_list at h; simp [dictConv] at h
    | str s => unfold ensure_questions_list at h; simp [dictConv] at h
    | list xs => unfold ensure_questions_list at h; simp [dictConv] at h

/-- Every section produced by the section loop is a dict whose
`questions` is a list of normalized question dicts. -/
theorem ensure_sections_out_ok (env : Env) (secs : List JValue) (c : Nat)
    (out : List JValue) (c' : Nat)
    (h : ensure_sections_list env secs c = some (out, c')) :
    ∀ sec ∈ out, ∃ sf qs, sec = .obj sf ∧ alGet sf "questions" = some (.list qs) ∧
      ∀ q ∈ qs, ∃ qd, q = .obj qd ∧ alContains qd "id" = true ∧
        options_ok qd ∧ value_map_ok qd := by
  induction secs generalizing c out c' with
  | nil =>
    unfold ensure_sections_list at h
    rw [Option.some_inj] at h
    injection h with h1 h2
    subst h1
    intro sec hsec
    simp at hsec
  | cons sec0 rest ih =>
    cases sec0 with
    | obj sf0 =>
      unfold ensure_sections_list at h
      simp only [dictConv, Option.some_bind, Option.bind_eq_bind, Option.bind_eq_some,
        Option.pure_def, Option.some_inj] at h
      obtain ⟨qsRaw, hqsRaw, ⟨qout, c1⟩, hqout, ⟨outr, c2⟩, hrest, heq⟩ := h
      dsimp only at heq
      injection heq with h1 h2
      subst h1
      intro sec hsec
      rcases List.mem_cons.mp hsec with rfl | hmem
      · exact ⟨alSet sf0 "questions" (.list qout), qout, rfl, alGet_alSet_self _ _ _,
          ensure_questions_out_ok env qsRaw c qout c1 hqout⟩
      · exact ih c1 outr c2 hrest sec hmem
    | null => unfold ensure_sections_list at h; simp [dictConv] at h
    | bool b => unfold ensure_sections_list at h; simp [dictConv] at h
    | int m => unfold ensure_sections_list at h; simp [dictConv] at h
    | float r => unfold ensure_sections_list at h; simp [dictConv] at h
    | str s => unfold ensure_sections_list at h; simp [dictConv] at h
    | list xs => unfold ensure_sections_list at h; simp [dictConv] at h

/-- Structural summary of any `ensure_question_ids` output. -/
theorem ensure_out_struct (env : Env) (doc y : JValue) (c c' : Nat)
    (h : ensure_question_ids env doc c = some (y, c')) :
    ∃ fs secOut, y = .obj fs ∧ alGet fs "sections" = some (.list secOut) ∧
      alContains fs "title" = true ∧
      ∀ sec ∈ secOut, ∃ sf qs, sec = .obj sf ∧ alGet sf "questions" = some (.list qs) ∧
        ∀ q ∈ qs, ∃ qd, q = .obj qd ∧ alContains qd "id" = true ∧
          options_ok qd ∧ value_map_ok qd := by
  unfold ensure_question_ids at h
  simp only [Option.bind_eq_bind, Option.bind_eq_some, Option.pure_def, Option.some_inj] at h
  obtain ⟨cd, hcd, secsRaw, hsecs, ⟨newSections, c2⟩, hens, hy⟩ := h
  refine ⟨_, newSections, (congrArg Prod.fst hy).symm, ?_, ?_,
    ensure_sections_out_ok env secsRaw c newSections c2 hens⟩
  · rw [alGet_alSetdefault_ne _ _ _ _ (by decide), alGet_alSet_self]
  · rw [alContains_iff, alGet_alSetdefault_same]
    rfl

/-- A second question-loop pass is the identity on normalized, safe
questions (the id supply still advances, so only the output list is
pinned). -/
theorem ensure_questions_list_idem (env2 : Env) (qs : List JValue) (c : Nat)
    (h : ∀ q ∈ qs, ∃ qd, q = .obj qd ∧ alContains qd "id" = true ∧
      options_ok qd ∧ value_map_ok qd ∧ question_options_safe qd = true) :
    ∃ c', ensure_questions_list env2 qs c = some (qs, c') := by
  induction qs generalizing c with
  | nil => exact ⟨c, rfl⟩
  | cons q rest ih =>
    obtain ⟨qd, rfl, hid, hok, hvm, hsafe⟩ := h _ (List.mem_cons_self _ _)
    obtain ⟨c', hrec⟩ := ih (c + 1) (fun q' hq' => h q' (List.mem_cons_of_mem _ hq'))
    refine ⟨c', ?_⟩
    unfold ensure_questions_list
    simp only [dictConv, Option.some_bind, Option.bind_eq_bind]
    rw [normalize_idem_of_ok env2 qd hok hvm hsafe]
    rw [alSetdefault_of_contains _ _ _ hid]
    rw [hrec]
    rfl

/-- A second section-loop pass is the identity on normalized, safe
sections. -/
theorem ensure_sections_list_idem (env2 : Env) (secs : List JValue) (c : Nat)
    (h : ∀ sec ∈ secs, ∃ sf qs, sec = .obj sf ∧ alGet sf "questions" = some (.list qs) ∧
      ∀ q ∈ qs, ∃ qd, q = .obj qd ∧ alContains qd "id" = true ∧
        options_ok qd ∧ value_map_ok qd ∧ question_options_safe qd = true) :
    ∃ c', ensure_sections_list env2 secs c = some (secs, c') := by
  induction secs generalizing c with
  | nil => exact ⟨c, rfl⟩
  | cons sec rest ih =>
    obtain ⟨sf, qs, rfl, hqs, hq⟩ := h _ (List.mem_cons_self _ _)
    obtain ⟨c1, hq1⟩ := ensure_questions_list_idem env2 qs c hq
    obtain ⟨c', hrec⟩ := ih c1 (fun s hs => h s (List.mem_cons_of_mem _ hs))
    refine ⟨c', ?_⟩
    unfold ensure_sections_list
    simp only [dictConv, Option.some_bind, Option.bind_eq_bind]
    have hgetd : alGetD sf "questions" (.list []) = .list qs := by
      unfold alGetD
      rw [hqs]
      rfl
    rw [hgetd]
    simp only [pyIter, Option.some_bind]
    rw [hq1]
    simp only [Option.some_bind]
    rw [alSet_self _ _ _ hqs, hrec]
    rfl

/-- A second `ensure_question_ids` pass is the identity on a normalized,
safe document. -/
theorem ensure_question_ids_idem (env2 : Env) (fs : Dict) (secOut : List JValue) (c2 : Nat)
    (hsec : alGet fs "sections" = some (.list secOut))
    (htitle : alContains fs "title" = true)
    (hsecs : ∀ sec ∈ secOut, ∃ sf qs, sec = .obj sf ∧
      alGet sf "questions" = some (.list qs) ∧
      ∀ q ∈ qs, ∃ qd, q = .obj qd ∧ alContains qd "id" = true ∧
        options_ok qd ∧ value_map_ok qd ∧ question_options_safe qd = true) :
    ∃ n', ensure_question_ids env2 (.obj fs) c2 = some (.obj fs, n') := by
  obtain ⟨c', hens⟩ := ensure_sections_list_idem env2 secOut c2 hsecs
  refine ⟨c', ?_⟩
  unfold ensure_question_ids
  simp only [dictConv, Option.some_bind, Option.bind_eq_bind]
  have hgetd : alGetD fs "sections" (.list []) = .list secOut := by
    unfold alGetD
    rw [hsec]
    rfl
  rw [hgetd]
  simp only [pyIter, Option.some_bind]
  rw [hens]
  simp only [Option.some_bind]
  rw [alSet_self _ _ _ hsec]
  rw [alSetdefault_of_contains _ _ _ htitle]
  rfl

/-- **C4** (amended): canonicalization is idempotent on every document
whose canonical form is idempotence-safe, i.e. no dropdown-kind question
ends up with an options list made entirely of single-character strings
(the rejoin heuristic's trigger).  A second pass — under any id supply,
parser, fallback name and counter — returns the first pass's output
verbatim: ids, options and value maps are all stable.  Without the
safety condition the claim fails, see the counterexample. -/
theorem C4_canonicalization_idempotent (env env2 : Env) (x y : JValue)
    (fb fb2 : String) (c c2 n : Nat)
    (h : to_canonical_question_set env x fb c = some (y, n))
    (hsafe : doc_options_safe y = true) :
    ∃ n', to_canonical_question_set env2 y fb2 c2 = some (y, n') := by
  have hE : ∃ d, ensure_question_ids env d c = some (y, n) := by
    unfold to_canonical_question_set at h
    repeat' split at h
    all_goals exact ⟨_, h⟩
  obtain ⟨d, hd⟩ := hE
  obtain ⟨fs, secOut, hy, hsec, htitle, hstruct⟩ := ensure_out_struct env d y c n hd
  subst hy
  have hdq : doc_questions (.obj fs) = secOut.flatMap section_questions := by
    unfold doc_questions doc_sections
    dsimp only
    rw [hsec]
  have hall : ∀ q ∈ secOut.flatMap section_questions,
      (match q with | .obj qd => question_options_safe qd | _ => true) = true := by
    unfold doc_options_safe at hsafe
    rw [hdq, List.all_eq_true] at hsafe
    intro q hq
    exact hsafe q hq
  have hsecs' : ∀ sec ∈ secOut, ∃ sf qs, sec = .obj sf ∧
      alGet sf "questions" = some (.list qs) ∧
      ∀ q ∈ qs, ∃ qd, q = .obj qd ∧ alContains qd "id" = true ∧
        options_ok qd ∧ value_map_ok qd ∧ question_options_safe qd = true := by
    intro sec hs
    obtain ⟨sf, qs, rfl, hqs, hq⟩ := hstruct sec hs
    refine ⟨sf, qs, rfl, hqs, ?_⟩
    intro q hqm
    obtain ⟨qd, rfl, hid, hok, hvm⟩ := hq q hqm
    have hmem : JValue.obj qd ∈ secOut.flatMap section_questions := by
      rw [List.mem_flatMap]
      refine ⟨.obj sf, hs, ?_⟩
      unfold section_questions
      dsimp only
      rw [hqs]
      exact hqm
    have hsq := hall _ hmem
    dsimp only at hsq
    exact ⟨qd, rfl, hid, hok, hvm, hsq⟩
  obtain ⟨n', hens⟩ := ensure_question_ids_idem env2 fs secOut c2 hsec htitle hsecs'
  refine ⟨n', ?_⟩
  unfold to_canonical_question_set
  dsimp only
  rw [if_pos ⟨by rw [alContains_iff, hsec]; rfl, htitle⟩]
  exact hens

/-- C4 counterexample: canonicalization is **not** idempotent in
general.  For the dropdown with options list `["a ", "b"]` the first
pass normalizes to `["a", "b"]`; the second pass sees a non-empty list
of single-character strings, re-joins it to `"ab"` and splits lines,
yielding `["ab"]` — so `canonicalize (canonicalize x) ≠ canonicalize x`. -/
theorem C4_counterexample :
    (to_canonical_question_set cexEnv cex_short_doc "fb" 0).map
      (fun p => first_question_options p.1) = some (some ["a", "b"]) ∧
    ((to_canonical_question_set cexEnv cex_short_doc "fb" 0).bind
      (fun p => (to_canonical_question_set cexEnv p.1 "fb" p.2).map
        (fun p2 => first_question_options p2.1))) = some (some ["ab"]) ∧
    (["ab"] : List String) ≠ ["a", "b"] :=
  ⟨rfl, rfl, by decide⟩

theorem C4_canonicalization_idempotent_witness :
    ∃ n', to_canonical_question_set cexEnv cex_rag_canon "fb2" 7 =
      some (cex_rag_canon, n') :=
  C4_canonicalization_idempotent cexEnv cexEnv cex_rag_doc cex_rag_canon "fb" "fb2" 0 7 1
    rfl rfl

/-! ### Auto-upgrade invariant (claim C3) -/

theorem foldl_max_init_le (l : List Nat) (init : Nat) : init ≤ l.foldl max init := by
  induction l generalizing init with
  | nil => exact Nat.le_refl _
  | cons x xs ih => exact Nat.le_trans (Nat.le_max_left _ _) (ih (max init x))

theorem le_foldl_max (l : List Nat) (a : Nat) (ha : a ∈ l) (init : Nat) :
    a ≤ l.foldl max init := by
  induction l generalizing init with
  | nil => simp at ha
  | cons x xs ih =>
    rcases List.mem_cons.mp ha with rfl | hmem
    · exact Nat.le_trans (Nat.le_max_right init a) (foldl_max_init_le xs _)
    · exact ih hmem _

theorem next_qset_id_fresh (db : Registry) (q : QSet) (hq : q ∈ db.question_sets) :
    q.id ≠ next_qset_id db := by
  intro he
  have hle : q.id ≤ (db.question_sets.map QSet.id).foldl max 0 :=
    le_foldl_max _ _ (List.mem_map_of_mem _ hq) 0
  rw [next_qset_id] at he
  omega

theorem upgrade_rewrite_project (newId : Nat) (row a : PQS) :
    (if a.project_id = row.project_id ∧ a.question_set_id = row.question_set_id then
        { a with question_set_id := newId } else a).project_id = a.project_id := by
  split <;> rfl

theorem upgrade_step_slice_eq (newId : Nat) (asg : List PQS) (row : PQS) (p : Nat)
    (hp : row.project_id = p) :
    (upgrade_step newId asg row).filter (fun a => a.project_id = p) =
      upgrade_step newId (asg.filter (fun a => a.project_id = p)) row := by
  have hany : ((asg.filter (fun a => a.project_id = p)).any
      (fun a => a.project_id = row.project_id ∧ a.question_set_id = newId)) =
      (asg.any (fun a => a.project_id = row.project_id ∧ a.question_set_id = newId)) := by
    rw [Bool.eq_iff_iff]
    simp only [List.any_eq_true, List.mem_filter, decide_eq_true_eq]
    constructor
    · rintro ⟨a, ⟨ha, _⟩, hq⟩
      exact ⟨a, ha, hq⟩
    · rintro ⟨a, ha, hq1, hq2⟩
      exact ⟨a, ⟨ha, by rw [hq1, hp]⟩, hq1, hq2⟩
  unfold upgrade_step
  rw [hany]
  split
  · exact List.filter_comm _ _ _
  · rw [List.filter_map]
    congr 1
    apply List.filter_congr
    intro a _
    have := upgrade_rewrite_project newId row a
    simp only [Function.comp]
    rw [this]

theorem upgrade_step_slice_ne (newId : Nat) (asg : List PQS) (row : PQS) (p : Nat)
    (hp : ¬ row.project_id = p) :
    (upgrade_step newId asg row).filter (fun a => a.project_id = p) =
      asg.filter (fun a => a.project_id = p) := by
  unfold upgrade_step
  split
  · rw [List.filter_comm]
    rw [List.filter_eq_self]
    intro a ha
    rw [List.mem_filter] at ha
    have hap : a.project_id = p := by simpa using ha.2
    apply decide_eq_true
    intro hc
    exact hp (by rw [← hc.1, hap])
  · rw [List.filter_map]
    have h1 : asg.filter ((fun a => decide (a.project_id = p)) ∘ (fun a =>
        if a.project_id = row.project_id ∧ a.question_set_id = row.question_set_id then
          { a with question_set_id := newId } else a)) =
        asg.filter (fun a => a.project_id = p) := by
      apply List.filter_congr
      intro a _
      simp only [Function.comp]
      rw [upgrade_rewrite_project newId row a]
    rw [h1]
    conv_rhs => rw [← List.map_id (asg.filter (fun a => a.project_id = p))]
    apply List.map_congr_left
    intro a ha
    rw [List.mem_filter] at ha
    have hap : a.project_id = p := by simpa using ha.2
    rw [if_neg]
    · rfl
    · intro hc
      exact hp (by rw [← hc.1, hap])

theorem foldl_upgrade_slice (newId : Nat) (rows : List PQS) (asg : List PQS) (p : Nat) :
    (rows.foldl (upgrade_step newId) asg).filter (fun a => a.project_id = p) =
      (rows.filter (fun r => r.project_id = p)).foldl (upgrade_step newId)
        (asg.filter (fun a => a.project_id = p)) := by
  induction rows generalizing asg with
  | nil => rfl
  | cons r rest ih =>
    simp only [List.foldl_cons, List.filter_cons]
    by_cases hp : r.project_id = p
    · rw [if_pos (decide_eq_true hp)]
      simp only [List.foldl_cons]
      rw [ih, upgrade_step_slice_eq newId asg r p hp]
    · rw [if_neg (by simp [hp])]
      rw [ih, upgrade_step_slice_ne newId asg r p hp]

theorem upgrade_delete_phase (newId pid : Nat) (rest : List PQS) (T : List PQS)
    (hproj : ∀ a ∈ T, a.project_id = pid)
    (hrestproj : ∀ r ∈ rest, r.project_id = pid)
    (hhasnew : ∃ a ∈ T, a.question_set_id = newId)
    (hrestnotnew : ∀ r ∈ rest, r.question_set_id ≠ newId) :
    rest.foldl (upgrade_step newId) T =
      T.filter (fun a => ¬ a.question_set_id ∈ rest.map PQS.question_set_id) := by
  induction rest generalizing T with
  | nil =>
    simp
  | cons r rest' ih =>
    obtain ⟨e, heT, heNew⟩ := hhasnew
    have hany : T.any (fun a => a.project_id = r.project_id ∧
        a.question_set_id = newId) = true := by
      rw [List.any_eq_true]
      refine ⟨e, heT, ?_⟩
      have h1 : e.project_id = r.project_id := by
        rw [hproj e heT, hrestproj r (List.mem_cons_self _ _)]
      simp [h1, heNew]
    rw [List.foldl_cons]
    have hstep : upgrade_step newId T r = T.filter (fun a =>
        ¬ (a.project_id = r.project_id ∧ a.question_set_id = r.question_set_id)) := by
      unfold upgrade_step
      rw [if_pos hany]
    rw [hstep]
    have hrne : r.question_set_id ≠ newId := hrestnotnew r (List.mem_cons_self _ _)
    rw [ih]
    · rw [List.filter_filter]
      apply List.filter_congr
      intro a haT
      have hap : a.project_id = r.project_id := by
        rw [hproj a haT, hrestproj r (List.mem_cons_self _ _)]
      by_cases hq : a.question_set_id = r.question_set_id
      · simp [hq, hap, List.mem_cons]
      · by_cases hm : a.question_set_id ∈ rest'.map PQS.question_set_id
        · simp [hq, hm, List.mem_cons]
        · simp [hq, hm, hap, List.mem_cons]
    · intro a ha
      rw [List.mem_filter] at ha
      exact hproj a ha.1
    · intro r' hr'
      exact hrestproj r' (List.mem_cons_of_mem _ hr')
    · refine ⟨e, ?_, heNew⟩
      rw [List.mem_filter]
      refine ⟨heT, ?_⟩
      apply decide_eq_true
      rintro ⟨_, hq⟩
      exact hrne (by rw [← hq, heNew])
    · intro r' hr'
      exact hrestnotnew r' (List.mem_cons_of_mem _ hr')

theorem filter_qsid_singleton (S : List PQS) (r : PQS)
    (huniq : S.Pairwise (fun a b => a.question_set_id ≠ b.question_set_id))
    (hr : r ∈ S) :
    S.filter (fun a => a.question_set_id = r.question_set_id) = [r] := by
  induction S with
  | nil => simp at hr
  | cons x S' ih =>
    rw [List.pairwise_cons] at huniq
    obtain ⟨hx, huniq'⟩ := huniq
    rcases List.mem_cons.mp hr with rfl | hmem
    · rw [List.filter_cons, if_pos (by simp)]
      have hnil : S'.filter (fun a => a.question_set_id = r.question_set_id) = [] := by
        rw [List.filter_eq_nil_iff]
        intro a ha
        simp only [decide_eq_true_eq]
        intro hc
        exact hx a ha hc.symm
      rw [hnil]
    · have hxne : x.question_set_id ≠ r.question_set_id := hx r hmem
      rw [List.filter_cons, if_neg (by simp [hxne])]
      exact ih huniq' hmem

theorem slice_upgrade (newId : Nat) (old_ids : List Nat) (pid : Nat) (S : List PQS)
    (hnew : ¬ newId ∈ old_ids)
    (hproj : ∀ a ∈ S, a.project_id = pid)
    (hnonew : ∀ a ∈ S, a.question_set_id ≠ newId)
    (huniq : S.Pairwise (fun a b => a.question_set_id ≠ b.question_set_id))
    (hne : S.filter (fun a => a.question_set_id ∈ old_ids) ≠ []) :
    ∃ a1 ∈ S, a1.question_set_id ∈ old_ids ∧
      ((S.filter (fun a => a.question_set_id ∈ old_ids)).foldl (upgrade_step newId) S).filter
        (fun a => a.question_set_id ∈ old_ids ∨ a.question_set_id = newId) =
      [⟨pid, newId, a1.position⟩] := by
  cases hrows : S.filter (fun a => a.question_set_id ∈ old_ids) with
  | nil => exact absurd hrows hne
  | cons r1 rest =>
    have hr1f : r1 ∈ S.filter (fun a => a.question_set_id ∈ old_ids) := by
      rw [hrows]
      exact List.mem_cons_self _ _
    rw [List.mem_filter] at hr1f
    obtain ⟨hr1S, hr1old'⟩ := hr1f
    have hr1old : r1.question_set_id ∈ old_ids := by simpa using hr1old'
    have hrest : ∀ r ∈ rest, r ∈ S ∧ r.question_set_id ∈ old_ids := by
      intro r hr
      have : r ∈ S.filter (fun a => a.question_set_id ∈ old_ids) := by
        rw [hrows]
        exact List.mem_cons_of_mem _ hr
      rw [List.mem_filter] at this
      exact ⟨this.1, by simpa using this.2⟩
    refine ⟨r1, hr1S, hr1old, ?_⟩
    rw [List.foldl_cons]
    have hany1 : S.any (fun a => a.project_id = r1.project_id ∧
        a.question_set_id = newId) = false := by
      rw [List.any_eq_false]
      intro a ha
      simp only [decide_eq_true_eq]
      rintro ⟨_, hq⟩
      exact hnonew a ha hq
    have hstep1 : upgrade_step newId S r1 = S.map (fun a =>
        if a.project_id = r1.project_id ∧ a.question_set_id = r1.question_set_id then
          { a with question_set_id := newId } else a) := by
      unfold upgrade_step
      rw [if_neg (by rw [hany1]; exact Bool.false_ne_true)]
    rw [hstep1]
    rw [upgrade_delete_phase newId pid rest _ ?hprojT ?hrestproj ?hhasnewT ?hrestnotnew]
    case hprojT =>
      intro a ha
      rw [List.mem_map] at ha
      obtain ⟨a0, ha0, rfl⟩ := ha
      rw [upgrade_rewrite_project]
      exact hproj a0 ha0
    case hrestproj =>
      intro r hr
      exact hproj r (hrest r hr).1
    case hhasnewT =>
      refine ⟨⟨r1.project_id, newId, r1.position⟩, ?_, rfl⟩
      have he : (fun a =>
          if a.project_id = r1.project_id ∧ a.question_set_id = r1.question_set_id then
            { a with question_set_id := newId } else a) r1 =
          ⟨r1.project_id, newId, r1.position⟩ := by
        dsimp only
        rw [if_pos ⟨rfl, rfl⟩]
      rw [← he]
      exact List.mem_map_of_mem _ hr1S
    case hrestnotnew =>
      intro r hr
      intro hc
      exact hnew (by rw [← hc]; exact (hrest r hr).2)
    -- final computation
    rw [List.filter_filter, List.filter_map]
    have hnr : ¬ newId ∈ rest.map PQS.question_set_id := by
      intro hc
      rw [List.mem_map] at hc
      obtain ⟨r, hrr, hrq⟩ := hc
      exact hnew (by rw [← hrq]; exact (hrest r hrr).2)
    have hpt : S.filter ((fun a => (decide (a.question_set_id ∈ old_ids ∨
          a.question_set_id = newId) && decide (¬ a.question_set_id ∈
            rest.map PQS.question_set_id))) ∘ (fun a =>
        if a.project_id = r1.project_id ∧ a.question_set_id = r1.question_set_id then
          { a with question_set_id := newId } else a)) =
        S.filter (fun a => a.question_set_id = r1.question_set_id) := by
      apply List.filter_congr
      intro a haS
      have hap : a.project_id = pid := hproj a haS
      have hr1p : r1.project_id = pid := hproj r1 hr1S
      by_cases hq : a.question_set_id = r1.question_set_id
      · simp [Function.comp, hap, hr1p, hq, hnr]
      · by_cases hold : a.question_set_id ∈ old_ids
        · have haf : a ∈ S.filter (fun x => x.question_set_id ∈ old_ids) := by
            rw [List.mem_filter]
            exact ⟨haS, decide_eq_true hold⟩
          rw [hrows] at haf
          rcases List.mem_cons.mp haf with rfl | hmem
          · exact absurd rfl hq
          · have hmm : a.question_set_id ∈ rest.map PQS.question_set_id :=
              List.mem_map_of_mem _ hmem
            simp [Function.comp, hap, hr1p, hq, hold, hmm]
        · simp [Function.comp, hap, hr1p, hq, hold, hnonew a haS]
    rw [hpt, filter_qsid_singleton S r1 huniq hr1S]
    have hp1 : r1.project_id = pid := hproj r1 hr1S
    simp [hp1]

/-- **C3**: after `create_question_set(name, payload)` on a well-formed
registry, every project that previously had an assignment to some older
non-deleted version named `name` ends with *exactly one* assignment to a
non-deleted version of that name — the filter below returns a singleton —
and that assignment points at the freshly created version, keeping the
position of one of the project's prior assignments to the old versions
(the first such row in table order; when the project had a single old
assignment, its position is preserved verbatim).  In particular the
project is never left with zero assignments to the name, nor with two
assignments to different live versions of it. -/
theorem C3_auto_upgrade_invariant (env : Env) (db : Registry) (name : String)
    (raw : JValue) (c : Nat) (db' : Registry) (newId c' : Nat) (pid : Nat)
    (hwf : registry_wf db)
    (h : create_question_set env db name raw c = some (db', newId, c'))
    (hprev : ∃ a ∈ db.assignments, a.project_id = pid ∧
      live_named_version db name a.question_set_id = true) :
    ∃ a ∈ db.assignments, a.project_id = pid ∧
      live_named_version db name a.question_set_id = true ∧
      db'.assignments.filter (fun x => x.project_id = pid ∧
        live_named_version db' name x.question_set_id) = [⟨pid, newId, a.position⟩] := by
  obtain ⟨hpair, href, hqsuniq⟩ := hwf
  unfold create_question_set at h
  simp only [Option.bind_eq_bind, Option.bind_eq_some, Option.pure_def, Option.some_inj] at h
  obtain ⟨⟨canonical, c1⟩, hcanon, heq⟩ := h
  dsimp only at heq
  injection heq with h1 h2
  injection h2 with h2a h2b
  subst h1
  subst h2a
  subst h2b
  have hfresh : ∀ q ∈ db.question_sets, q.id ≠ next_qset_id db :=
    fun q hq => next_qset_id_fresh db q hq
  -- abbreviations (purely notational)
  have hO1 : ∀ i : Nat, i ∈ ((db.question_sets ++
        [QSet.mk (next_qset_id db) name false canonical]).filter
        (fun q => q.name = name ∧ q.id ≠ next_qset_id db ∧ ¬ q.deleted)).map QSet.id ↔
      live_named_version db name i = true := by
    intro i
    simp only [live_named_version, List.any_eq_true, List.mem_map, List.mem_filter,
      List.mem_append, List.mem_singleton, decide_eq_true_eq]
    constructor
    · rintro ⟨q, ⟨hq | rfl, hname, hid, hdel⟩, rfl⟩
      · exact ⟨q, hq, rfl, hname, hdel⟩
      · exact absurd rfl hid
    · rintro ⟨q, hq, hid, hname, hdel⟩
      exact ⟨q, ⟨Or.inl hq, hname, hfresh q hq, hdel⟩, hid⟩
  have hO2 : ∀ (asg2 : List PQS) (i : Nat),
      live_named_version ⟨db.question_sets ++
        [QSet.mk (next_qset_id db) name false canonical], asg2⟩ name i = true ↔
      (i ∈ ((db.question_sets ++
        [QSet.mk (next_qset_id db) name false canonical]).filter
        (fun q => q.name = name ∧ q.id ≠ next_qset_id db ∧ ¬ q.deleted)).map QSet.id ∨
        i = next_qset_id db) := by
    intro asg2 i
    simp only [live_named_version, List.any_eq_true, List.mem_append, List.mem_singleton,
      decide_eq_true_eq]
    constructor
    · rintro ⟨q, hq | rfl, hid, hname, hdel⟩
      · left
        exact (hO1 i).mpr (by
          simp only [live_named_version, List.any_eq_true, decide_eq_true_eq]
          exact ⟨q, hq, hid, hname, hdel⟩)
      · right
        exact hid.symm
    · rintro (hold | rfl)
      · have hl := (hO1 i).mp hold
        simp only [live_named_version, List.any_eq_true, decide_eq_true_eq] at hl
        obtain ⟨q, hq, hid, hname, hdel⟩ := hl
        exact ⟨q, Or.inl hq, hid, hname, hdel⟩
      · exact ⟨QSet.mk (next_qset_id db) name false canonical, Or.inr rfl, rfl, rfl, by simp⟩
  -- split the claimed filter into a project slice and a version-class filter
  have hsplit : ∀ (asg2 : List PQS),
      asg2.filter (fun x => x.project_id = pid ∧
        live_named_version ⟨db.question_sets ++
          [QSet.mk (next_qset_id db) name false canonical], asg2⟩ name x.question_set_id) =
      (asg2.filter (fun x => x.project_id = pid)).filter
        (fun x => x.question_set_id ∈ ((db.question_sets ++
          [QSet.mk (next_qset_id db) name false canonical]).filter
          (fun q => q.name = name ∧ q.id ≠ next_qset_id db ∧ ¬ q.deleted)).map QSet.id ∨
          x.question_set_id = next_qset_id db) := by
    intro asg2
    rw [List.filter_filter]
    apply List.filter_congr
    intro x _
    dsimp only
    by_cases hp : x.project_id = pid
    · by_cases hl : live_named_version ⟨db.question_sets ++
          [QSet.mk (next_qset_id db) name false canonical], asg2⟩ name x.question_set_id = true
      · have hdis := (hO2 asg2 x.question_set_id).mp hl
        rw [decide_eq_true ⟨hp, hl⟩, decide_eq_true hdis, decide_eq_true hp]
        rfl
      · have hno : ¬ (x.question_set_id ∈ ((db.question_sets ++
            [QSet.mk (next_qset_id db) name false canonical]).filter
            (fun q => q.name = name ∧ q.id ≠ next_qset_id db ∧ ¬ q.deleted)).map QSet.id ∨
            x.question_set_id = next_qset_id db) :=
          fun hc => hl ((hO2 asg2 x.question_set_id).mpr hc)
        rw [decide_eq_false (fun hc => hl hc.2), decide_eq_false hno, Bool.false_and]
    · rw [decide_eq_false (fun hc => hp hc.1), decide_eq_false hp, Bool.and_false]
  rw [hsplit]
  rw [foldl_upgrade_slice]
  rw [List.filter_comm]
  have hnew : ¬ next_qset_id db ∈ ((db.question_sets ++
      [QSet.mk (next_qset_id db) name false canonical]).filter
      (fun q => q.name = name ∧ q.id ≠ next_qset_id db ∧ ¬ q.deleted)).map QSet.id := by
    intro hc
    rw [List.mem_map] at hc
    obtain ⟨q, hqf, hqid⟩ := hc
    rw [List.mem_filter] at hqf
    have := hqf.2
    simp only [decide_eq_true_eq] at this
    exact this.2.1 hqid
  have hproj : ∀ a ∈ db.assignments.filter (fun a => a.project_id = pid),
      a.project_id = pid := by
    intro a ha
    rw [List.mem_filter] at ha
    simpa using ha.2
  have hnonew : ∀ a ∈ db.assignments.filter (fun a => a.project_id = pid),
      a.question_set_id ≠ next_qset_id db := by
    intro a ha
    rw [List.mem_filter] at ha
    obtain ⟨q, hq, hqid⟩ := href a ha.1
    rw [← hqid]
    exact hfresh q hq
  have huniq : (db.assignments.filter (fun a => a.project_id = pid)).Pairwise
      (fun a b => a.question_set_id ≠ b.question_set_id) := by
    have hsub : (db.assignments.filter (fun a => a.project_id = pid)).Pairwise
        (fun a b => ¬ (a.project_id = b.project_id ∧ a.question_set_id = b.question_set_id)) :=
      List.Pairwise.sublist (List.filter_sublist db.assignments) hpair
    apply List.Pairwise.imp_of_mem ?_ hsub
    intro a b ha hb hR
    intro hq
    exact hR ⟨by rw [hproj a ha, hproj b hb], hq⟩
  have hne : (db.assignments.filter (fun a => a.project_id = pid)).filter
      (fun a => a.question_set_id ∈ ((db.question_sets ++
        [QSet.mk (next_qset_id db) name false canonical]).filter
        (fun q => q.name = name ∧ q.id ≠ next_qset_id db ∧ ¬ q.deleted)).map QSet.id) ≠ [] := by
    obtain ⟨a, haA, hap, halive⟩ := hprev
    apply List.ne_nil_of_mem (a := a)
    rw [List.mem_filter]
    refine ⟨?_, ?_⟩
    · rw [List.mem_filter]
      exact ⟨haA, decide_eq_true hap⟩
    · exact decide_eq_true ((hO1 a.question_set_id).mpr halive)
  obtain ⟨a1, ha1S, ha1old, heqf⟩ := slice_upgrade (next_qset_id db) _ pid
    (db.assignments.filter (fun a => a.project_id = pid)) hnew hproj hnonew huniq hne
  rw [List.mem_filter] at ha1S
  refine ⟨a1, ha1S.1, by simpa using ha1S.2, (hO1 a1.question_set_id).mp ha1old, heqf⟩

theorem C3_auto_upgrade_invariant_witness :
    ∃ a ∈ cex_db.assignments, a.project_id = 10 ∧
      live_named_version cex_db "daily" a.question_set_id = true ∧
      cex_db_after.assignments.filter (fun x => x.project_id = 10 ∧
        live_named_version cex_db_after "daily" x.question_set_id) = [⟨10, 2, a.position⟩] :=
  C3_auto_upgrade_invariant cexEnv cex_db "daily" .null 0 cex_db_after 2 0 10
    (by unfold registry_wf; exact ⟨by decide, by decide, by decide⟩) rfl
    ⟨⟨10, 1, 0⟩, by decide, by decide, by decide⟩

/-! ### Label dedup (claim C9) -/

/-- **C9**: when a posted key is a human-readable label (not a UUID) and
its normalized form matches an existing question's text in the merged
form's label index, ingestion reuses that question's id and writes only
the answer: the custom-question block is left untouched, no unknown-key
error can arise, and any stored record keys the value by the existing
id.  Applied to a state that already holds the question synthesized by a
first identical call, the second call synthesizes nothing — the custom
question is created exactly once across the two calls. -/
theorem C9_label_dedup (env : Env) (setsData : List JValue) (proj : ProjCtx)
    (k : String) (v : JValue) (s1 : St) (c : Nat) (form2 : JValue) (c1 : Nat) (ql2 : Dict)
    (qid : String) (s2 : St) (c2 : Nat) (out : Except RouteErr Dict)
    (hnotuuid : is_uuid k = false)
    (hform : merged_project_form env setsData proj.name s1.custom_questions c =
      some (form2, c1))
    (hql : question_lookup_from_form form2 = some ql2)
    (hnotin : alContains ql2 k = false)
    (hfound : lmGet (extend_label_map ql2 []) (normalize_label (.str k)) = some qid)
    (h : create_record_route env setsData proj [(k, v)] s1 c = some (s2, c2, out)) :
    s2.custom_questions = s1.custom_questions ∧
    (s2.records = s1.records ∨ s2.records = s1.records ++ [[(qid, v)]]) ∧
    (∀ r, out = Except.ok r → r = [(qid, v)]) ∧
    (∀ key, out ≠ Except.error (RouteErr.unknownKey key)) := by
  unfold create_record_route at h
  rw [hform] at h
  simp only [Option.bind_eq_bind, Option.some_bind] at h
  rw [hql] at h
  simp only [Option.some_bind] at h
  rw [autofill_answers_noop _ _ _ (question_lookup_entries _ _ hql)] at h
  have hunk : ((([(k, v)] : Dict).map Prod.fst).filter (fun k2 => ¬ alContains ql2 k2)) =
      [k] := by
    simp [hnotin]
  rw [hunk] at h
  have hres : resolve_one env setsData proj.name
      { answers := [(k, v)], qlookup := ql2, labelMap := extend_label_map ql2 [],
        custom := s1.custom_questions, c := c1 } k =
      some (ResolveOut.ok
        { answers := [(qid, v)], qlookup := ql2, labelMap := extend_label_map ql2 [],
          custom := s1.custom_questions, c := c1 }) := by
    have hget : alGet [(k, v)] k = some v := by
      rw [alGet_cons, if_pos rfl]
    simp [resolve_one, hget, hnotuuid, hfound, alPop, alSet]
  unfold resolve_unknown_keys at h
  rw [hres] at h
  simp only [Option.bind_eq_bind, Option.some_bind] at h
  unfold resolve_unknown_keys at h
  simp only [Option.bind_eq_bind, Option.some_bind] at h
  cases hm : missing_required [(qid, v)] ql2 with
  | none =>
    rw [hm] at h
    simp at h
  | some missing =>
    rw [hm] at h
    simp only [Option.some_bind] at h
    by_cases hempty : missing.isEmpty
    · rw [if_pos hempty] at h
      rw [Option.pure_def, Option.some_inj] at h
      have h1 := congrArg Prod.fst h
      have h2 := congrArg (fun p => p.2.2) h
      dsimp only at h1 h2
      subst h1
      refine ⟨rfl, Or.inr rfl, ?_, ?_⟩
      · intro r hr
        rw [← h2] at hr
        injection hr with hr
        exact hr.symm
      · intro key hk
        rw [← h2] at hk
        cases hk
    · rw [if_neg hempty] at h
      simp only [Option.bind_eq_bind, Option.bind_eq_some, Option.some_inj] at h
      obtain ⟨joined, hj, h⟩ := h
      rw [Option.pure_def, Option.some_inj] at h
      have h1 := congrArg Prod.fst h
      have h2 := congrArg (fun p => p.2.2) h
      dsimp only at h1 h2
      subst h1
      refine ⟨rfl, Or.inl rfl, ?_, ?_⟩
      · intro r hr
        rw [← h2] at hr
        cases hr
      · intro key hk
        rw [← h2] at hk
        injection hk with hk
        cases hk

theorem C9_label_dedup_witness :
    create_record_route cexEnv [] cex_proj cex_payload cex_state0 0 =
      some (cex_s1, 3, .ok [("uuid-0", .str "positive")]) ∧
    (cex_s2.custom_questions = cex_s1.custom_questions ∧
      (cex_s2.records = cex_s1.records ∨
        cex_s2.records = cex_s1.records ++ [[("uuid-0", .str "positive")]]) ∧
      (∀ r, (Except.ok [("uuid-0", JValue.str "positive")] : Except RouteErr Dict) =
        Except.ok r → r = [("uuid-0", .str "positive")]) ∧
      (∀ key, (Except.ok [("uuid-0", JValue.str "positive")] : Except RouteErr Dict) ≠
        Except.error (RouteErr.unknownKey key))) :=
  ⟨rfl, C9_label_dedup cexEnv [] cex_proj "Local stakeholder sentiment" (.str "positive")
    cex_s1 3 cex_form2 4 cex_ql2 "uuid-0" cex_s2 4
    (.ok [("uuid-0", .str "positive")]) rfl rfl rfl rfl rfl rfl⟩

end FormsApp
